import Mathlib

/-!
# simple-CPU: a shallow embedding of the emulator's dispatch loop

The repository holds two variants of one byte-code interpreter:
`src/with-safety/main.c` (bounds-checked) and `src/main.c` (unchecked).
This file embeds the checked variant in namespace `Checked` and the unchecked
variant in namespace `Unchecked`.

Conventions of the embedding
* `uint8_t` / `uint16_t` values are `Nat`; every conversion to `uint16_t`
  goes through `u16`, which reduces the (int-typed) C expression modulo 2^16.
* `size_t` values are `Nat`; the additions of `can_read` and of `cpu.PC += instr_len`
  are reduced modulo `SIZE_T_RANGE`.  The subscripts `cpu.PC + 1` and `cpu.PC + 2`
  are only evaluated inside the loop, where `cpu.PC < ROM_SIZE`, and are plain sums.
* The `int` accumulators of the input loops (`0x30`, `0x31`) are held as their
  32-bit two's-complement patterns, values below `INT_RANGE`; their arithmetic
  wraps modulo `INT_RANGE`, as it does in the compiled program.  The `int` PC of
  the unchecked variant has the outcome `signedOverflow` if `cpu.PC += instr_len`
  leaves the range of `int`.
* The global arrays `rom` and `ram` are lists; every C subscript `a[i]` is the
  total lookup `a[i]?`, and the `none` branch is the outcome `outOfRange`.
* `stdin` is the list of bytes still to be read, `stdout` and `stderr` are the
  lists of items written so far.
-/

namespace SimpleCPU

/-! ## Constants (`#define`s) -/

def ROM_SIZE : Nat := 32768
def RAM_SIZE : Nat := 65536
def OK : Nat := 0
def ERROR : Nat := 1
def EXIT_SUCCESS : Nat := 0
def EXIT_FAILURE : Nat := 1

/-- Number of values of the C type `size_t` (64-bit target). -/
def SIZE_T_RANGE : Nat := 18446744073709551616

/-- Largest value of the C type `int` (32-bit). -/
def INT_MAX : Nat := 2147483647

/-- Number of values of the C type `int` (32-bit). -/
def INT_RANGE : Nat := 4294967296

/-! ## Machine integers -/

/-- Conversion of an `int`-typed C expression to `uint16_t`. -/
def u16 (x : Int) : Nat := (x % 65536).toNat

/-- The C expression `rom[PC + 1] | (rom[PC + 2] << 8)` on the two operand bytes. -/
def imm16 (lo hi : Nat) : Nat := lo ||| (hi <<< 8)

/-! ## Console -/

/-- Diagnostics the interpreter prints before `return EXIT_FAILURE`. -/
inductive Fault where
  /-- Message `Truncated instruction at PC=%zu`. -/
  | truncatedInstruction (pc : Nat)
  /-- Message `RAM out of bounds: 0x%04X at PC=%zu`. -/
  | ramOutOfBounds (addr pc : Nat)
  /-- Message `Unknown opcode: 0x%02X at PC=%zu`. -/
  | unknownOpcode (opcode pc : Nat)
  deriving DecidableEq, Repr

/-- One item written to an output stream. -/
inductive Output where
  /-- One byte, written by `putchar` or as part of a `printf("%u")`. -/
  | byte (c : Nat)
  /-- The line `Loaded %zu bytes` of `load_rom`. -/
  | loaded (bytes_read : Nat)
  /-- A diagnostic line. -/
  | diagnostic (f : Fault)
  deriving DecidableEq, Repr

/-- The C call `getchar()`: `none` is `EOF`; returns the byte and the rest of the input. -/
def getchar (stdin : List Nat) : Option Nat × List Nat :=
  match stdin with
  | [] => (none, [])
  | c :: rest => (some c, rest)

/-- Bytes written by `printf("%u", v)`. -/
def printf_u (v : Nat) : List Output :=
  (Nat.toDigits 10 v).map fun c => Output.byte c.toNat

/-! ## State -/

/-- The C struct `cpu_state`. -/
structure cpu_state where
  A : Nat
  B : Nat
  C : Nat
  D : Nat
  PC : Nat
  Z : Bool
  deriving DecidableEq, Repr

/-- Everything the loop of `main` can read or change apart from `rom`. -/
structure Machine where
  cpu : cpu_state
  ram : List Nat
  stdin : List Nat
  stdout : List Output
  stderr : List Output
  deriving DecidableEq, Repr

/-- Undefined behaviour the embedding tracks. -/
inductive Undefined where
  /-- An array subscript outside the array. -/
  | outOfRange
  /-- Overflow of a signed `int` computation. -/
  | signedOverflow
  deriving DecidableEq, Repr

/-- Result of one iteration of the `while` loop of `main`. -/
inductive Outcome where
  /-- The iteration finished and the loop goes on. -/
  | running (m : Machine)
  /-- Opcode `0xFF`: `return EXIT_SUCCESS`. -/
  | halted (m : Machine)
  /-- A diagnostic was printed and `main` returned `EXIT_FAILURE`. -/
  | faulted (f : Fault) (m : Machine)
  /-- The loop condition `cpu.PC < ROM_SIZE` was false: control leaves `main`. -/
  | exhausted (m : Machine)
  /-- The iteration ran into undefined behaviour. -/
  | undefined (u : Undefined)
  deriving DecidableEq, Repr

/-- Exit status of the process for a terminal outcome (`main` returns 0 when
control reaches its closing brace). -/
def Outcome.exitStatus : Outcome → Option Nat
  | .running _ => none
  | .halted _ => some EXIT_SUCCESS
  | .faulted _ _ => some EXIT_FAILURE
  | .exhausted _ => some 0
  | .undefined _ => none

/-- Function `load_rom` after a successful `fopen`: the array `rom` after
`memset` and `fread`, and the value of `bytes_read`. -/
def load_rom (file : List Nat) : List Nat × Nat :=
  (file.take ROM_SIZE ++ List.replicate (ROM_SIZE - file.length) 0,
   min file.length ROM_SIZE)

/-- Subscript `rom[i]` followed by the rest of the case. -/
def romAt (rom : List Nat) (i : Nat) (k : Nat → Outcome) : Outcome :=
  match rom[i]? with
  | some b => k b
  | none => .undefined .outOfRange

/-- Read `ram[addr]` followed by the rest of the case. -/
def ramAt (m : Machine) (addr : Nat) (k : Nat → Outcome) : Outcome :=
  match m.ram[addr]? with
  | some b => k b
  | none => .undefined .outOfRange

/-- Assignment `ram[addr] = v` followed by the rest of the case. -/
def ramSet (m : Machine) (addr v : Nat) (k : Machine → Outcome) : Outcome :=
  if addr < m.ram.length then k { m with ram := m.ram.set addr v }
  else .undefined .outOfRange

def setA (m : Machine) (v : Nat) : Machine := { m with cpu := { m.cpu with A := v } }
def setB (m : Machine) (v : Nat) : Machine := { m with cpu := { m.cpu with B := v } }
def setC (m : Machine) (v : Nat) : Machine := { m with cpu := { m.cpu with C := v } }
def setD (m : Machine) (v : Nat) : Machine := { m with cpu := { m.cpu with D := v } }
def setZ (m : Machine) (z : Bool) : Machine := { m with cpu := { m.cpu with Z := z } }
def setPC (m : Machine) (pc : Nat) : Machine := { m with cpu := { m.cpu with PC := pc } }

/-- Call `putchar(c)`; the argument is converted to `unsigned char`. -/
def putchar (m : Machine) (c : Nat) : Machine :=
  { m with stdout := m.stdout ++ [Output.byte (c % 256)] }

/-- The loop of opcode `0x30`: `value = value * 10 + (c - '0')` while `getchar`
returns a decimal digit.  The byte that ends the loop is consumed.  The result is
the final `value`, as a 32-bit pattern, and the input left. -/
def in_dec_loop : Nat → List Nat → Nat × List Nat
  | value, [] => (value, [])
  | value, c :: rest =>
    if 48 ≤ c ∧ c ≤ 57 then in_dec_loop ((value * 10 + (c - 48)) % INT_RANGE) rest
    else (value, rest)

/-- The loop of opcode `0x31`: `value = (value << 1) | (c - '0')` while `getchar`
returns `'0'` or `'1'`.  The byte that ends the loop is consumed.  The result is
the final `value`, as a 32-bit pattern, and the input left. -/
def in_bin_loop : Nat → List Nat → Nat × List Nat
  | value, [] => (value, [])
  | value, c :: rest =>
    if c = 48 ∨ c = 49 then in_bin_loop (((value <<< 1) % INT_RANGE) ||| (c - 48)) rest
    else (value, rest)

/-- The loop of opcode `0x2F`: one `putchar` per bit 7..0 of `a`, then a newline. -/
def out_bits (m : Machine) (a : Nat) : Machine :=
  putchar
    ([7, 6, 5, 4, 3, 2, 1, 0].foldl
      (fun acc i => putchar acc (if a &&& (1 <<< i) ≠ 0 then 49 else 48)) m)
    10

/-- Register and flag values set at the top of `main` (the same in both variants). -/
def initial_cpu : cpu_state := { A := 0, B := 0, C := 0, D := 0, PC := 0, Z := false }

/-- State on entry to the loop: zeroed `ram`, the given input, and the line that
`load_rom` printed. -/
def initial (bytes_read : Nat) (stdin : List Nat) : Machine :=
  { cpu := initial_cpu, ram := List.replicate RAM_SIZE 0, stdin := stdin,
    stdout := [.loaded bytes_read], stderr := [] }

/-- The four general-purpose registers, in the order of the opcode table. -/
inductive Reg where
  | A
  | B
  | C
  | D
  deriving DecidableEq, Repr

/-- Position of a register in the order A, B, C, D. -/
def Reg.index : Reg → Nat
  | .A => 0
  | .B => 1
  | .C => 2
  | .D => 3

/-- Value of a register. -/
def cpu_state.get (c : cpu_state) : Reg → Nat
  | .A => c.A
  | .B => c.B
  | .C => c.C
  | .D => c.D

/-- Assignment to a register. -/
def setReg (m : Machine) (r : Reg) (v : Nat) : Machine :=
  match r with
  | .A => setA m v
  | .B => setB m v
  | .C => setC m v
  | .D => setD m v

namespace Checked

/-- Helper `can_read` of the checked variant (arguments of type `size_t`). -/
def can_read (pc n : Nat) : Bool := decide ((pc + n) % SIZE_T_RANGE ≤ ROM_SIZE)

/-- Macro `CHECK_ROM(n)` followed by the rest of the case. -/
def CHECK_ROM (m : Machine) (n : Nat) (k : Outcome) : Outcome :=
  if !can_read m.cpu.PC n then
    .faulted (.truncatedInstruction m.cpu.PC)
      { m with stderr := m.stderr ++ [.diagnostic (.truncatedInstruction m.cpu.PC)] }
  else k

/-- Macro `CHECK_RAM(addr)` followed by the rest of the case. -/
def CHECK_RAM (m : Machine) (addr : Nat) (k : Outcome) : Outcome :=
  if addr ≥ RAM_SIZE then
    .faulted (.ramOutOfBounds addr m.cpu.PC)
      { m with stderr := m.stderr ++ [.diagnostic (.ramOutOfBounds addr m.cpu.PC)] }
  else k

/-- Statements `instr_len = len; break;` and the `cpu.PC += instr_len` after the switch. -/
def advance (m : Machine) (len : Nat) : Outcome :=
  .running (setPC m ((m.cpu.PC + len) % SIZE_T_RANGE))

/-- Both operand bytes `rom[PC + 1]`, `rom[PC + 2]`, read in this order. -/
def operands (rom : List Nat) (m : Machine) (k : Nat → Nat → Outcome) : Outcome :=
  romAt rom (m.cpu.PC + 1) fun lo => romAt rom (m.cpu.PC + 2) fun hi => k lo hi

/-- The statement `switch (opcode)` of the loop body together with the
`cpu.PC += instr_len` that follows it (skipped by the cases that `continue`). -/
def dispatch (rom : List Nat) (m : Machine) (opcode : Nat) : Outcome :=
    match opcode with
    | 0x00 => CHECK_ROM m 2 <| romAt rom (m.cpu.PC + 1) fun b =>
        advance (setA m (u16 (m.cpu.A + b))) 2
    | 0x01 => CHECK_ROM m 2 <| romAt rom (m.cpu.PC + 1) fun b =>
        advance (setB m (u16 (m.cpu.B + b))) 2
    | 0x02 => CHECK_ROM m 2 <| romAt rom (m.cpu.PC + 1) fun b =>
        advance (setC m (u16 (m.cpu.C + b))) 2
    | 0x03 => CHECK_ROM m 2 <| romAt rom (m.cpu.PC + 1) fun b =>
        advance (setD m (u16 (m.cpu.D + b))) 2
    | 0x04 => CHECK_ROM m 2 <| romAt rom (m.cpu.PC + 1) fun b =>
        advance (setA m (u16 (m.cpu.A - b))) 2
    | 0x05 => CHECK_ROM m 2 <| romAt rom (m.cpu.PC + 1) fun b =>
        advance (setB m (u16 (m.cpu.B - b))) 2
    | 0x06 => CHECK_ROM m 2 <| romAt rom (m.cpu.PC + 1) fun b =>
        advance (setC m (u16 (m.cpu.C - b))) 2
    | 0x07 => CHECK_ROM m 2 <| romAt rom (m.cpu.PC + 1) fun b =>
        advance (setD m (u16 (m.cpu.D - b))) 2
    | 0x08 => advance (setA m (u16 (m.cpu.A + 1))) 1
    | 0x09 => advance (setB m (u16 (m.cpu.B + 1))) 1
    | 0x0A => advance (setC m (u16 (m.cpu.C + 1))) 1
    | 0x0B => advance (setD m (u16 (m.cpu.D + 1))) 1
    | 0x0C => advance (setA m (u16 (m.cpu.A - 1))) 1
    | 0x0D => advance (setB m (u16 (m.cpu.B - 1))) 1
    | 0x0E => advance (setC m (u16 (m.cpu.C - 1))) 1
    | 0x0F => advance (setD m (u16 (m.cpu.D - 1))) 1
    | 0x10 => CHECK_ROM m 2 <| romAt rom (m.cpu.PC + 1) fun b => advance (setA m b) 2
    | 0x11 => CHECK_ROM m 2 <| romAt rom (m.cpu.PC + 1) fun b => advance (setB m b) 2
    | 0x12 => CHECK_ROM m 2 <| romAt rom (m.cpu.PC + 1) fun b => advance (setC m b) 2
    | 0x13 => CHECK_ROM m 2 <| romAt rom (m.cpu.PC + 1) fun b => advance (setD m b) 2
    | 0x14 => CHECK_ROM m 3 <| operands rom m fun lo hi =>
        .running (setPC m (u16 (imm16 lo hi)))
    | 0x15 => CHECK_ROM m 3 <| operands rom m fun lo hi =>
        advance (setA m (u16 (m.cpu.A + imm16 lo hi))) 3
    | 0x16 => CHECK_ROM m 3 <| operands rom m fun lo hi =>
        advance (setB m (u16 (m.cpu.B + imm16 lo hi))) 3
    | 0x17 => CHECK_ROM m 3 <| operands rom m fun lo hi =>
        advance (setC m (u16 (m.cpu.C + imm16 lo hi))) 3
    | 0x18 => CHECK_ROM m 3 <| operands rom m fun lo hi =>
        advance (setD m (u16 (m.cpu.D + imm16 lo hi))) 3
    | 0x19 => CHECK_ROM m 3 <| operands rom m fun lo hi =>
        advance (setA m (u16 (m.cpu.A - imm16 lo hi))) 3
    | 0x1A => CHECK_ROM m 3 <| operands rom m fun lo hi =>
        advance (setB m (u16 (m.cpu.B - imm16 lo hi))) 3
    | 0x1B => CHECK_ROM m 3 <| operands rom m fun lo hi =>
        advance (setC m (u16 (m.cpu.C - imm16 lo hi))) 3
    | 0x1C => CHECK_ROM m 3 <| operands rom m fun lo hi =>
        advance (setD m (u16 (m.cpu.D - imm16 lo hi))) 3
    | 0x1D => CHECK_ROM m 3 <| operands rom m fun lo hi =>
        advance (setA m (u16 (imm16 lo hi))) 3
    | 0x1E => CHECK_ROM m 3 <| operands rom m fun lo hi =>
        advance (setB m (u16 (imm16 lo hi))) 3
    | 0x1F => CHECK_ROM m 3 <| operands rom m fun lo hi =>
        advance (setC m (u16 (imm16 lo hi))) 3
    | 0x20 => CHECK_ROM m 3 <| operands rom m fun lo hi =>
        advance (setD m (u16 (imm16 lo hi))) 3
    | 0x21 => CHECK_ROM m 3 <| operands rom m fun lo hi =>
        if m.cpu.A = imm16 lo hi then advance (setZ m true) 3
        else advance (setZ m false) 3
    | 0x22 => CHECK_ROM m 3 <|
        if m.cpu.Z then operands rom m fun lo hi => .running (setPC m (imm16 lo hi))
        else advance m 3
    | 0x23 => CHECK_ROM m 3 <|
        if !m.cpu.Z then operands rom m fun lo hi => .running (setPC m (imm16 lo hi))
        else advance m 3
    | 0x24 => CHECK_ROM m 3 <| operands rom m fun lo hi =>
        CHECK_RAM m (u16 (imm16 lo hi)) <| ramAt m (u16 (imm16 lo hi)) fun v =>
        advance (setA m v) 3
    | 0x25 => CHECK_ROM m 3 <| operands rom m fun lo hi =>
        CHECK_RAM m (u16 (imm16 lo hi)) <| ramAt m (u16 (imm16 lo hi)) fun v =>
        advance (setB m v) 3
    | 0x26 => CHECK_ROM m 3 <| operands rom m fun lo hi =>
        CHECK_RAM m (u16 (imm16 lo hi)) <| ramAt m (u16 (imm16 lo hi)) fun v =>
        advance (setC m v) 3
    | 0x27 => CHECK_ROM m 3 <| operands rom m fun lo hi =>
        CHECK_RAM m (u16 (imm16 lo hi)) <| ramAt m (u16 (imm16 lo hi)) fun v =>
        advance (setD m v) 3
    | 0x28 => CHECK_ROM m 3 <| operands rom m fun lo hi =>
        CHECK_RAM m (u16 (imm16 lo hi)) <|
        ramSet m (u16 (imm16 lo hi)) (m.cpu.A &&& 0xFF) fun m1 => advance m1 3
    | 0x29 => CHECK_ROM m 3 <| operands rom m fun lo hi =>
        CHECK_RAM m (u16 (imm16 lo hi)) <|
        ramSet m (u16 (imm16 lo hi)) (m.cpu.B &&& 0xFF) fun m1 => advance m1 3
    | 0x2A => CHECK_ROM m 3 <| operands rom m fun lo hi =>
        CHECK_RAM m (u16 (imm16 lo hi)) <|
        ramSet m (u16 (imm16 lo hi)) (m.cpu.C &&& 0xFF) fun m1 => advance m1 3
    | 0x2B => CHECK_ROM m 3 <| operands rom m fun lo hi =>
        CHECK_RAM m (u16 (imm16 lo hi)) <|
        ramSet m (u16 (imm16 lo hi)) (m.cpu.D &&& 0xFF) fun m1 => advance m1 3
    | 0x2C => advance (putchar m (m.cpu.A &&& 0xFF)) 1
    | 0x2D =>
        match getchar m.stdin with
        | (none, rest) => advance (setA { m with stdin := rest } (0 &&& 0xFF)) 1
        | (some c, rest) => advance (setA { m with stdin := rest } (c &&& 0xFF)) 1
    | 0x2E => advance { m with stdout := m.stdout ++ printf_u m.cpu.A } 1
    | 0x2F => advance (out_bits m m.cpu.A) 1
    | 0x30 =>
        advance (setA { m with stdin := (in_dec_loop 0 m.stdin).2 }
          ((in_dec_loop 0 m.stdin).1 &&& 0xFF)) 1
    | 0x31 =>
        advance (setA { m with stdin := (in_bin_loop 0 m.stdin).2 }
          ((in_bin_loop 0 m.stdin).1 &&& 0xFF)) 1
    | 0xFF => .halted m
    | _ =>
        .faulted (.unknownOpcode opcode m.cpu.PC)
          { m with stdout := m.stdout ++ [.diagnostic (.unknownOpcode opcode m.cpu.PC)] }

/-- One iteration of `while (cpu.PC < ROM_SIZE && running)` in `main`, the loop
condition included (`running` is never set to false): fetch `rom[cpu.PC]`, then
the switch. -/
def step (rom : List Nat) (m : Machine) : Outcome :=
  if ¬ (m.cpu.PC < ROM_SIZE) then .exhausted m
  else romAt rom m.cpu.PC fun opcode => dispatch rom m opcode

/-- At most `fuel` iterations of the loop from `m`. -/
def run (rom : List Nat) : Nat → Machine → Outcome
  | 0, m => .running m
  | fuel + 1, m =>
    match step rom m with
    | .running m1 => run rom fuel m1
    | o => o

/-- Function `main` with a readable ROM file, cut off after `fuel` iterations. -/
def main (fuel : Nat) (file : List Nat) (stdin : List Nat) : Outcome :=
  run (load_rom file).1 fuel (initial (load_rom file).2 stdin)

/-- States at the top of a loop iteration in a run of `main`. -/
inductive Reachable (rom : List Nat) (bytes_read : Nat) (stdin : List Nat) : Machine → Prop
  | init : Reachable rom bytes_read stdin (initial bytes_read stdin)
  | next {m m1 : Machine} :
      Reachable rom bytes_read stdin m → step rom m = .running m1 →
      Reachable rom bytes_read stdin m1

/-- No subscript of the iteration left its array, and if the loop goes on the
data region still has `RAM_SIZE` cells. -/
def InBounds (o : Outcome) : Prop :=
  o ≠ .undefined .outOfRange ∧ ∀ m1, o = .running m1 → m1.ram.length = RAM_SIZE

/-- Number of operand bytes of the case of `opcode`: the argument of its
`CHECK_ROM` less the opcode byte, 0 for a case without `CHECK_ROM`, `none` for the
default case. -/
def operand_width (opcode : Nat) : Option Nat :=
  if opcode ≤ 0x07 then some 1
  else if opcode ≤ 0x0F then some 0
  else if opcode ≤ 0x13 then some 1
  else if opcode ≤ 0x2B then some 2
  else if opcode ≤ 0x31 then some 0
  else if opcode = 0xFF then some 0
  else none

/-- Outcome of a failed `CHECK_ROM`: the diagnostic on `stderr`, then `return EXIT_FAILURE`. -/
def truncated (m : Machine) : Outcome :=
  .faulted (.truncatedInstruction m.cpu.PC)
    { m with stderr := m.stderr ++ [.diagnostic (.truncatedInstruction m.cpu.PC)] }

/-- The iteration completed and the loop goes on. -/
def Runs (o : Outcome) : Prop := ∃ m1, o = .running m1

end Checked

/-! ## The unchecked variant (`src/main.c`)

Its `cpu_state` has `int PC`; the loop only ever stores non-negative values in it,
and the embedding keeps `PC` a `Nat`. -/

namespace Unchecked

/-- Statements `instr_len = len; break;` and the `cpu.PC += instr_len` after the
switch, an addition of `int`s. -/
def advance (m : Machine) (len : Nat) : Outcome :=
  if m.cpu.PC + len ≤ INT_MAX then .running (setPC m (m.cpu.PC + len))
  else .undefined .signedOverflow

/-- Both operand bytes `rom[PC + 1]`, `rom[PC + 2]`. -/
def operands (rom : List Nat) (m : Machine) (k : Nat → Nat → Outcome) : Outcome :=
  romAt rom (m.cpu.PC + 1) fun lo => romAt rom (m.cpu.PC + 2) fun hi => k lo hi

/-- The statement `switch (opcode)` of the loop body together with the
`cpu.PC += instr_len` that follows it (skipped by the cases that `continue`);
the diagnostic of the default case prints the PC with `%d` and returns 1. -/
def dispatch (rom : List Nat) (m : Machine) (opcode : Nat) : Outcome :=
    match opcode with
    | 0x00 => romAt rom (m.cpu.PC + 1) fun b =>
        advance (setA m (u16 (m.cpu.A + b))) 2
    | 0x01 => romAt rom (m.cpu.PC + 1) fun b =>
        advance (setB m (u16 (m.cpu.B + b))) 2
    | 0x02 => romAt rom (m.cpu.PC + 1) fun b =>
        advance (setC m (u16 (m.cpu.C + b))) 2
    | 0x03 => romAt rom (m.cpu.PC + 1) fun b =>
        advance (setD m (u16 (m.cpu.D + b))) 2
    | 0x04 => romAt rom (m.cpu.PC + 1) fun b =>
        advance (setA m (u16 (m.cpu.A - b))) 2
    | 0x05 => romAt rom (m.cpu.PC + 1) fun b =>
        advance (setB m (u16 (m.cpu.B - b))) 2
    | 0x06 => romAt rom (m.cpu.PC + 1) fun b =>
        advance (setC m (u16 (m.cpu.C - b))) 2
    | 0x07 => romAt rom (m.cpu.PC + 1) fun b =>
        advance (setD m (u16 (m.cpu.D - b))) 2
    | 0x08 => advance (setA m (u16 (m.cpu.A + 1))) 1
    | 0x09 => advance (setB m (u16 (m.cpu.B + 1))) 1
    | 0x0A => advance (setC m (u16 (m.cpu.C + 1))) 1
    | 0x0B => advance (setD m (u16 (m.cpu.D + 1))) 1
    | 0x0C => advance (setA m (u16 (m.cpu.A - 1))) 1
    | 0x0D => advance (setB m (u16 (m.cpu.B - 1))) 1
    | 0x0E => advance (setC m (u16 (m.cpu.C - 1))) 1
    | 0x0F => advance (setD m (u16 (m.cpu.D - 1))) 1
    | 0x10 => romAt rom (m.cpu.PC + 1) fun b => advance (setA m b) 2
    | 0x11 => romAt rom (m.cpu.PC + 1) fun b => advance (setB m b) 2
    | 0x12 => romAt rom (m.cpu.PC + 1) fun b => advance (setC m b) 2
    | 0x13 => romAt rom (m.cpu.PC + 1) fun b => advance (setD m b) 2
    | 0x14 => operands rom m fun lo hi =>
        .running (setPC m (u16 (imm16 lo hi)))
    | 0x15 => operands rom m fun lo hi =>
        advance (setA m (u16 (m.cpu.A + imm16 lo hi))) 3
    | 0x16 => operands rom m fun lo hi =>
        advance (setB m (u16 (m.cpu.B + imm16 lo hi))) 3
    | 0x17 => operands rom m fun lo hi =>
        advance (setC m (u16 (m.cpu.C + imm16 lo hi))) 3
    | 0x18 => operands rom m fun lo hi =>
        advance (setD m (u16 (m.cpu.D + imm16 lo hi))) 3
    | 0x19 => operands rom m fun lo hi =>
        advance (setA m (u16 (m.cpu.A - imm16 lo hi))) 3
    | 0x1A => operands rom m fun lo hi =>
        advance (setB m (u16 (m.cpu.B - imm16 lo hi))) 3
    | 0x1B => operands rom m fun lo hi =>
        advance (setC m (u16 (m.cpu.C - imm16 lo hi))) 3
    | 0x1C => operands rom m fun lo hi =>
        advance (setD m (u16 (m.cpu.D - imm16 lo hi))) 3
    | 0x1D => operands rom m fun lo hi =>
        advance (setA m (u16 (imm16 lo hi))) 3
    | 0x1E => operands rom m fun lo hi =>
        advance (setB m (u16 (imm16 lo hi))) 3
    | 0x1F => operands rom m fun lo hi =>
        advance (setC m (u16 (imm16 lo hi))) 3
    | 0x20 => operands rom m fun lo hi =>
        advance (setD m (u16 (imm16 lo hi))) 3
    | 0x21 => operands rom m fun lo hi =>
        if m.cpu.A = imm16 lo hi then advance (setZ m true) 3
        else advance m 3
    | 0x22 => if m.cpu.Z then operands rom m fun lo hi => .running (setPC m (imm16 lo hi))
        else advance m 3
    | 0x23 => if !m.cpu.Z then operands rom m fun lo hi => .running (setPC m (imm16 lo hi))
        else advance m 3
    | 0x24 => operands rom m fun lo hi => ramAt m (u16 (imm16 lo hi)) fun v =>
        advance (setA m v) 3
    | 0x25 => operands rom m fun lo hi => ramAt m (u16 (imm16 lo hi)) fun v =>
        advance (setB m v) 3
    | 0x26 => operands rom m fun lo hi => ramAt m (u16 (imm16 lo hi)) fun v =>
        advance (setC m v) 3
    | 0x27 => operands rom m fun lo hi => ramAt m (u16 (imm16 lo hi)) fun v =>
        advance (setD m v) 3
    | 0x28 => operands rom m fun lo hi =>
        ramSet m (u16 (imm16 lo hi)) (m.cpu.A &&& 0xFF) fun m1 => advance m1 3
    | 0x29 => operands rom m fun lo hi =>
        ramSet m (u16 (imm16 lo hi)) (m.cpu.B &&& 0xFF) fun m1 => advance m1 3
    | 0x2A => operands rom m fun lo hi =>
        ramSet m (u16 (imm16 lo hi)) (m.cpu.C &&& 0xFF) fun m1 => advance m1 3
    | 0x2B => operands rom m fun lo hi =>
        ramSet m (u16 (imm16 lo hi)) (m.cpu.D &&& 0xFF) fun m1 => advance m1 3
    | 0x2C => advance (putchar m (m.cpu.A &&& 0xFF)) 1
    | 0x2D =>
        match getchar m.stdin with
        | (none, rest) => advance (setA { m with stdin := rest } (0 &&& 0xFF)) 1
        | (some c, rest) => advance (setA { m with stdin := rest } (c &&& 0xFF)) 1
    | 0x2E => advance { m with stdout := m.stdout ++ printf_u m.cpu.A } 1
    | 0x2F => advance (out_bits m m.cpu.A) 1
    | 0x30 =>
        advance (setA { m with stdin := (in_dec_loop 0 m.stdin).2 }
          ((in_dec_loop 0 m.stdin).1 &&& 0xFF)) 1
    | 0x31 =>
        advance (setA { m with stdin := (in_bin_loop 0 m.stdin).2 }
          ((in_bin_loop 0 m.stdin).1 &&& 0xFF)) 1
    | 0xFF => .halted m
    | _ =>
        .faulted (.unknownOpcode opcode m.cpu.PC)
          { m with stdout := m.stdout ++ [.diagnostic (.unknownOpcode opcode m.cpu.PC)] }

/-- One iteration of `while (cpu.PC < ROM_SIZE && running)` in `main`, the loop
condition included: fetch `rom[cpu.PC]`, then the switch. -/
def step (rom : List Nat) (m : Machine) : Outcome :=
  if ¬ (m.cpu.PC < ROM_SIZE) then .exhausted m
  else romAt rom m.cpu.PC fun opcode => dispatch rom m opcode

/-- At most `fuel` iterations of the loop from `m`. -/
def run (rom : List Nat) : Nat → Machine → Outcome
  | 0, m => .running m
  | fuel + 1, m =>
    match step rom m with
    | .running m1 => run rom fuel m1
    | o => o

end Unchecked

/-- The two programs of the repository. -/
inductive Variant where
  /-- The program `src/with-safety/main.c`. -/
  | checked
  /-- The program `src/main.c`. -/
  | unchecked
  deriving DecidableEq, Repr

/-- One loop iteration of the given program. -/
def Variant.step : Variant → List Nat → Machine → Outcome
  | .checked => Checked.step
  | .unchecked => Unchecked.step

/-- At most `fuel` loop iterations of the given program. -/
def Variant.run : Variant → List Nat → Nat → Machine → Outcome
  | .checked => Checked.run
  | .unchecked => Unchecked.run

/-- The outcome with `f` applied to the machine it carries. -/
def Outcome.map (f : Machine → Machine) : Outcome → Outcome
  | .running m => .running (f m)
  | .halted m => .halted (f m)
  | .faulted e m => .faulted e (f m)
  | .exhausted m => .exhausted (f m)
  | .undefined u => .undefined u

/-- The machine state an outcome carries, if any. -/
def Outcome.machine? : Outcome → Option Machine
  | .running m => some m
  | .halted m => some m
  | .faulted _ m => some m
  | .exhausted m => some m
  | .undefined _ => none

/-- Value that a run of ASCII decimal digits accumulates from `v`, most significant
digit first. -/
def decimal_from (v : Nat) (ds : List Nat) : Nat :=
  ds.foldl (fun acc c => acc * 10 + (c - 48)) v

/-- Decimal value of a run of ASCII decimal digits. -/
def decimal_value (ds : List Nat) : Nat := decimal_from 0 ds

/-- The byte is one of the ASCII characters `'0'`..`'9'`. -/
@[reducible] def is_digit (c : Nat) : Prop := 48 ≤ c ∧ c ≤ 57

/-- The case in which the two variants leave different zero flags: the opcode at
the PC is CMP (`0x21`), `Z` is already true and `A` differs from the immediate. -/
def cmp_mismatch_with_Z (rom : List Nat) (m : Machine) : Prop :=
  rom[m.cpu.PC]? = some 0x21 ∧ m.cpu.Z = true ∧
    ∃ lo hi, rom[m.cpu.PC + 1]? = some lo ∧ rom[m.cpu.PC + 2]? = some hi ∧
      m.cpu.A ≠ imm16 lo hi

/-! ## Runs without jumps, and the text of OUT_BITS -/

/-- The outcome is one of the three terminal outcomes of the specification:
Halted, Faulted or Exhausted. -/
def Outcome.isTerminal : Outcome → Bool
  | .halted _ => true
  | .faulted _ _ => true
  | .exhausted _ => true
  | _ => false

/-- The run of the checked variant from `m0` never executes JMP, JZ or JNZ: at the
top of every iteration it reaches with the PC inside the code region, the opcode
fetched is none of `0x14`, `0x22`, `0x23`. -/
def no_jump_executed (rom : List Nat) (m0 : Machine) : Prop :=
  ∀ k mk, Checked.run rom k m0 = .running mk → mk.cpu.PC < ROM_SIZE →
    rom[mk.cpu.PC]? ≠ some 0x14 ∧ rom[mk.cpu.PC]? ≠ some 0x22 ∧
      rom[mk.cpu.PC]? ≠ some 0x23

/-- Bit `i` of `v` as the ASCII character `0` or `1`. -/
def bit_char (v i : Nat) : Nat := 48 + v / 2 ^ i % 2

/-- The nine characters the specification gives for OUT_BITS: bits 7 down to 0 of
`v`, then a newline. -/
def bits_text (v : Nat) : List Nat :=
  [7, 6, 5, 4, 3, 2, 1, 0].map (bit_char v) ++ [10]

/-- The value accumulated by the loop of IN_BIN from `value` over the characters
`bs`, without the bound of `int`. -/
def binary_from (value : Nat) (bs : List Nat) : Nat :=
  bs.foldl (fun acc c => 2 * acc + (c - 48)) value

/-! # Theorems -/

/-! ## Field lemmas for the state updates -/

@[simp] theorem setA_ram (m : Machine) (v : Nat) : (setA m v).ram = m.ram := rfl
@[simp] theorem setB_ram (m : Machine) (v : Nat) : (setB m v).ram = m.ram := rfl
@[simp] theorem setC_ram (m : Machine) (v : Nat) : (setC m v).ram = m.ram := rfl
@[simp] theorem setD_ram (m : Machine) (v : Nat) : (setD m v).ram = m.ram := rfl
@[simp] theorem setZ_ram (m : Machine) (z : Bool) : (setZ m z).ram = m.ram := rfl
@[simp] theorem setPC_ram (m : Machine) (v : Nat) : (setPC m v).ram = m.ram := rfl
@[simp] theorem putchar_ram (m : Machine) (c : Nat) : (putchar m c).ram = m.ram := rfl
@[simp] theorem out_bits_ram (m : Machine) (a : Nat) : (out_bits m a).ram = m.ram := by
  simp [out_bits, List.foldl]

theorem u16_lt (x : Int) : u16 x < 65536 := by
  unfold u16
  omega

namespace Checked

/-! ## The bounds checks -/

theorem can_read_iff {pc n : Nat} (hpc : pc < ROM_SIZE) (hn : n ≤ 3) :
    can_read pc n = true ↔ pc + n ≤ ROM_SIZE := by
  simp only [can_read, ROM_SIZE, SIZE_T_RANGE, decide_eq_true_eq] at *
  omega

theorem dispatch_unknown (rom : List Nat) (m : Machine) (op : Nat)
    (hop : 0x31 < op) (hff : op ≠ 0xFF) :
    dispatch rom m op = .faulted (.unknownOpcode op m.cpu.PC)
      { m with stdout := m.stdout ++ [.diagnostic (.unknownOpcode op m.cpu.PC)] } := by
  unfold dispatch
  simp (disch := omega) only []

/-! ## Generic rules: a property of the rest of a case is a property of the case -/

theorem romAt_of (P : Outcome → Prop) {rom : List Nat} {i : Nat} {k : Nat → Outcome}
    (hi : i < rom.length) (hk : ∀ b, P (k b)) : P (romAt rom i k) := by
  unfold romAt
  rw [List.getElem?_eq_getElem hi]
  exact hk _

theorem operands_of (P : Outcome → Prop) {rom : List Nat} {m : Machine}
    {k : Nat → Nat → Outcome}
    (hi : m.cpu.PC + 2 < rom.length) (hk : ∀ lo hi, P (k lo hi)) : P (operands rom m k) :=
  romAt_of P (by omega) fun lo => romAt_of P hi fun hi => hk lo hi

theorem ramAt_of (P : Outcome → Prop) {m : Machine} {addr : Nat} {k : Nat → Outcome}
    (hi : addr < m.ram.length) (hk : ∀ b, P (k b)) : P (ramAt m addr k) := by
  unfold ramAt
  rw [List.getElem?_eq_getElem hi]
  exact hk _

theorem ramSet_of (P : Outcome → Prop) {m : Machine} {addr v : Nat} {k : Machine → Outcome}
    (hi : addr < m.ram.length)
    (hk : ∀ m1 : Machine, m1.ram.length = m.ram.length → P (k m1)) :
    P (ramSet m addr v k) := by
  unfold ramSet
  rw [if_pos hi]
  exact hk _ (by simp)

theorem CHECK_ROM_of (P : Outcome → Prop) {m : Machine} {n : Nat} {k : Outcome}
    (hpc : m.cpu.PC < ROM_SIZE) (hn : n ≤ 3)
    (hk : m.cpu.PC + n ≤ ROM_SIZE → P k)
    (hf : ROM_SIZE < m.cpu.PC + n →
      P (.faulted (.truncatedInstruction m.cpu.PC)
        { m with stderr := m.stderr ++ [.diagnostic (.truncatedInstruction m.cpu.PC)] })) :
    P (CHECK_ROM m n k) := by
  unfold CHECK_ROM
  by_cases h : can_read m.cpu.PC n = true
  · simpa [h] using hk ((can_read_iff hpc hn).1 h)
  · have h2 : ROM_SIZE < m.cpu.PC + n := by
      rw [can_read_iff hpc hn] at h
      omega
    simpa [h] using hf h2

theorem CHECK_RAM_of (P : Outcome → Prop) {m : Machine} {addr : Nat} {k : Outcome}
    (haddr : addr < RAM_SIZE) (hk : P k) : P (CHECK_RAM m addr k) := by
  unfold CHECK_RAM
  rw [if_neg (by omega)]
  exact hk

/-! ## C1: every subscript stays inside its array -/

theorem inBounds_running {m : Machine} (h : m.ram.length = RAM_SIZE) :
    InBounds (.running m) := by
  simp [InBounds, h]

theorem inBounds_advance {m : Machine} {len : Nat} (h : m.ram.length = RAM_SIZE) :
    InBounds (advance m len) := by
  simp [InBounds, advance, setPC, h]

theorem inBounds_dispatch {rom : List Nat} {m : Machine} (op : Nat)
    (hrom : rom.length = ROM_SIZE) (hram : m.ram.length = RAM_SIZE)
    (hpc : m.cpu.PC < ROM_SIZE) : InBounds (dispatch rom m op) := by
  by_cases hop : op ≤ 0x31
  · have hrom1 : rom.length = 32768 := hrom
    have hpc1 : m.cpu.PC < 32768 := hpc
    have run1 : ∀ m1 : Machine, m1.ram = m.ram → InBounds (.running m1) :=
      fun m1 h => inBounds_running (by rw [h]; exact hram)
    have adv1 : ∀ (m1 : Machine) (len : Nat), m1.ram = m.ram → InBounds (advance m1 len) :=
      fun m1 len h => inBounds_advance (by rw [h]; exact hram)
    have adv2 : ∀ (m1 : Machine) (len : Nat), m1.ram.length = m.ram.length →
        InBounds (advance m1 len) :=
      fun m1 len h => inBounds_advance (by rw [h]; exact hram)
    have chk : ∀ (n : Nat) (k : Outcome), n ≤ 3 → (m.cpu.PC + n ≤ 32768 → InBounds k) →
        InBounds (CHECK_ROM m n k) :=
      fun n k hn hk => CHECK_ROM_of InBounds hpc hn hk fun _ => by simp [InBounds]
    have ram1 : ∀ x : Int, u16 x < m.ram.length := fun x => by rw [hram]; exact u16_lt x
    interval_cases op <;> simp only [dispatch] <;>
      first
        | exact adv1 _ _ (by simp)
        | exact chk _ _ (by decide) fun hcr =>
            romAt_of InBounds (by omega) fun b => adv1 _ _ (by simp)
        | exact chk _ _ (by decide) fun hcr =>
            operands_of InBounds (by omega) fun lo hi => adv1 _ _ (by simp)
        | exact chk _ _ (by decide) fun hcr =>
            operands_of InBounds (by omega) fun lo hi => run1 _ (by simp)
        | exact chk _ _ (by decide) fun hcr =>
            operands_of InBounds (by omega) fun lo hi => by
              split <;> exact adv1 _ _ (by simp)
        | exact chk _ _ (by decide) fun hcr => by
            split
            · exact operands_of InBounds (by omega) fun lo hi => run1 _ (by simp)
            · exact adv1 _ _ rfl
        | exact chk _ _ (by decide) fun hcr =>
            operands_of InBounds (by omega) fun lo hi =>
              CHECK_RAM_of InBounds (u16_lt _) <|
                ramAt_of InBounds (ram1 _) fun v => adv1 _ _ (by simp)
        | exact chk _ _ (by decide) fun hcr =>
            operands_of InBounds (by omega) fun lo hi =>
              CHECK_RAM_of InBounds (u16_lt _) <|
                ramSet_of InBounds (ram1 _) fun m1 hm1 => adv2 _ _ hm1
        | (split <;> exact adv1 _ _ (by simp))
  · by_cases hff : op = 0xFF
    · subst hff
      simp [dispatch, InBounds]
    · rw [dispatch_unknown rom m op (by omega) hff]
      simp [InBounds]

theorem inBounds_step {rom : List Nat} {m : Machine}
    (hrom : rom.length = ROM_SIZE) (hram : m.ram.length = RAM_SIZE) :
    InBounds (step rom m) := by
  unfold step
  by_cases hpc : m.cpu.PC < ROM_SIZE
  · rw [if_neg (not_not.2 hpc)]
    exact romAt_of InBounds (by rw [hrom]; exact hpc) fun op =>
      inBounds_dispatch op hrom hram hpc
  · rw [if_pos hpc]
    simp [InBounds]

theorem Reachable.ram_length {rom : List Nat} {bytes_read : Nat} {stdin : List Nat}
    {m : Machine} (hrom : rom.length = ROM_SIZE) (h : Reachable rom bytes_read stdin m) :
    m.ram.length = RAM_SIZE := by
  induction h with
  | init => simp [initial]
  | next _ hstep ih => exact (inBounds_step hrom ih).2 _ hstep

/-- C1: in the checked variant, for every code region of 32768 bytes, every input
stream and every state reachable from the initial state, one iteration of the loop
never subscripts `rom` or `ram` outside the array: with total lookups the
out-of-range branch is not taken. -/
theorem step_in_bounds (rom : List Nat) (hrom : rom.length = ROM_SIZE)
    (bytes_read : Nat) (stdin : List Nat) (m : Machine)
    (h : Reachable rom bytes_read stdin m) :
    step rom m ≠ .undefined .outOfRange :=
  (inBounds_step hrom (h.ram_length hrom)).1

end Checked

/-! ## The loaded image -/

theorem load_rom_length (file : List Nat) : (load_rom file).1.length = ROM_SIZE := by
  simp only [load_rom, List.length_append, List.length_take, List.length_replicate]
  omega

theorem load_rom_getElem? (file : List Nat) {i : Nat} (hi : i < ROM_SIZE) :
    (load_rom file).1[i]? = some (file.getD i 0) := by
  simp only [load_rom]
  by_cases h : i < file.length
  · rw [List.getElem?_append_left (by simp [List.length_take]; omega)]
    rw [List.getElem?_take_of_lt hi]
    simp [List.getD_eq_getElem?_getD, h]
  · rw [List.getElem?_append_right (by simp [List.length_take]; omega)]
    have : min ROM_SIZE file.length = file.length := by omega
    simp [List.length_take, this, List.getD_eq_getElem?_getD, List.getElem?_replicate]
    constructor
    · omega
    · rw [List.getElem?_eq_none (by omega)]; rfl

namespace Checked

theorem step_in_bounds_witness :
    (load_rom [0x14, 0, 0]).1.length = ROM_SIZE ∧
    Reachable (load_rom [0x14, 0, 0]).1 3 [] (initial 3 []) ∧
    step (load_rom [0x14, 0, 0]).1 (initial 3 []) ≠ .undefined .outOfRange :=
  ⟨load_rom_length _, .init, step_in_bounds _ (load_rom_length _) 3 [] _ .init⟩

/-! ## C2: truncated instructions -/

theorem runs_advance (m : Machine) (len : Nat) : Runs (advance m len) := ⟨_, rfl⟩

theorem runs_running (m : Machine) : Runs (.running m) := ⟨_, rfl⟩

theorem truncated_dispatch {rom : List Nat} {m : Machine} {op w : Nat}
    (hrom : rom.length = ROM_SIZE) (hram : m.ram.length = RAM_SIZE)
    (hpc : m.cpu.PC < ROM_SIZE) (hw : operand_width op = some w) (hw12 : w = 1 ∨ w = 2) :
    (ROM_SIZE ≤ m.cpu.PC + w → dispatch rom m op = truncated m) ∧
    (m.cpu.PC + w < ROM_SIZE → Runs (dispatch rom m op)) := by
  have hrom1 : rom.length = 32768 := hrom
  have hpc1 : m.cpu.PC < 32768 := hpc
  have ram1 : ∀ x : Int, u16 x < m.ram.length := fun x => by rw [hram]; exact u16_lt x
  have hop : op ≤ 0x2B := by
    unfold operand_width at hw
    split_ifs at hw <;> first | omega | (simp at hw; omega)
  have chk : ∀ (n : Nat) (k : Outcome), n = w + 1 → (m.cpu.PC + n ≤ 32768 → Runs k) →
      (ROM_SIZE ≤ m.cpu.PC + w → CHECK_ROM m n k = truncated m) ∧
      (m.cpu.PC + w < ROM_SIZE → Runs (CHECK_ROM m n k)) := by
    intro n k hn hk
    subst hn
    refine CHECK_ROM_of
      (fun o => (ROM_SIZE ≤ m.cpu.PC + w → o = truncated m) ∧
        (m.cpu.PC + w < ROM_SIZE → Runs o)) hpc (by omega) (fun h => ?_) (fun h => ?_)
    · exact ⟨fun h2 => by omega, fun _ => hk h⟩
    · exact ⟨fun _ => rfl, fun h2 => by omega⟩
  interval_cases op <;> simp [operand_width] at hw <;> subst hw <;> simp only [dispatch] <;>
    first
      | exact chk _ _ rfl fun hcr =>
          romAt_of Runs (by omega) fun b => runs_advance _ _
      | exact chk _ _ rfl fun hcr =>
          operands_of Runs (by omega) fun lo hi => runs_advance _ _
      | exact chk _ _ rfl fun hcr =>
          operands_of Runs (by omega) fun lo hi => runs_running _
      | exact chk _ _ rfl fun hcr =>
          operands_of Runs (by omega) fun lo hi => by
            split <;> exact runs_advance _ _
      | exact chk _ _ rfl fun hcr => by
          split
          · exact operands_of Runs (by omega) fun lo hi => runs_running _
          · exact runs_advance _ _
      | exact chk _ _ rfl fun hcr =>
          operands_of Runs (by omega) fun lo hi =>
            CHECK_RAM_of Runs (u16_lt _) <|
              ramAt_of Runs (ram1 _) fun v => runs_advance _ _
      | exact chk _ _ rfl fun hcr =>
          operands_of Runs (by omega) fun lo hi =>
            CHECK_RAM_of Runs (u16_lt _) <|
              ramSet_of Runs (ram1 _) fun m1 hm1 => runs_advance _ _
      | omega

theorem step_fetch {rom : List Nat} {m : Machine} {op : Nat}
    (hpc : m.cpu.PC < ROM_SIZE) (hop : rom[m.cpu.PC]? = some op) :
    step rom m = dispatch rom m op := by
  simp [step, hpc, romAt, hop]

/-- C2: in the checked variant, at a PC below 32768 that holds an opcode with
1 or 2 operand bytes, the iteration ends with the truncated-instruction fault
exactly when an operand byte would lie at offset 32768 or beyond; when the last
operand byte is at offset 32767 or below, the instruction executes and the loop
goes on. -/
theorem truncated_iff (rom : List Nat) (m : Machine) (op w : Nat)
    (hrom : rom.length = ROM_SIZE) (hram : m.ram.length = RAM_SIZE)
    (hpc : m.cpu.PC < ROM_SIZE) (hop : rom[m.cpu.PC]? = some op)
    (hw : operand_width op = some w) (hw12 : w = 1 ∨ w = 2) :
    ((∃ p m1, step rom m = .faulted (.truncatedInstruction p) m1) ↔
        ROM_SIZE ≤ m.cpu.PC + w) ∧
    (ROM_SIZE ≤ m.cpu.PC + w →
        step rom m = truncated m ∧ (step rom m).exitStatus = some EXIT_FAILURE) ∧
    (m.cpu.PC + w < ROM_SIZE → Runs (step rom m)) := by
  rw [step_fetch hpc hop]
  obtain ⟨h1, h2⟩ := @truncated_dispatch rom m op w hrom hram hpc hw hw12
  refine ⟨⟨?_, fun h => ⟨_, _, h1 h⟩⟩, fun h => ⟨h1 h, by rw [h1 h]; rfl⟩, h2⟩
  rintro ⟨p, m1, hf⟩
  by_contra hlt
  obtain ⟨m2, hr⟩ := h2 (by omega)
  rw [hr] at hf
  cases hf

theorem replicate_rom_at (b : Nat) {i : Nat} (hi : i < ROM_SIZE) :
    (List.replicate ROM_SIZE b)[i]? = some b := by
  rw [List.getElem?_replicate, if_pos hi]

/-- Witness for `truncated_iff`: in an all-`0x00` image (`ADD A, imm8`, two bytes)
the instruction at 32766 executes and the one at 32767 faults; in an all-`0x15`
image (`ADD A, imm16`, three bytes) the instruction at 32765 executes and the one
at 32766 faults. -/
theorem truncated_iff_witness :
    Runs (step (List.replicate ROM_SIZE 0x00) (setPC (initial 0 []) 32766)) ∧
    step (List.replicate ROM_SIZE 0x00) (setPC (initial 0 []) 32767)
      = truncated (setPC (initial 0 []) 32767) ∧
    Runs (step (List.replicate ROM_SIZE 0x15) (setPC (initial 0 []) 32765)) ∧
    step (List.replicate ROM_SIZE 0x15) (setPC (initial 0 []) 32766)
      = truncated (setPC (initial 0 []) 32766) :=
  ⟨(truncated_iff (List.replicate ROM_SIZE 0x00) (setPC (initial 0 []) 32766) 0x00 1
      (by simp) (by simp [initial]) (by decide) (replicate_rom_at _ (by decide)) (by decide)
      (by decide)).2.2 (by decide),
   ((truncated_iff (List.replicate ROM_SIZE 0x00) (setPC (initial 0 []) 32767) 0x00 1
      (by simp) (by simp [initial]) (by decide) (replicate_rom_at _ (by decide)) (by decide)
      (by decide)).2.1 (by decide)).1,
   (truncated_iff (List.replicate ROM_SIZE 0x15) (setPC (initial 0 []) 32765) 0x15 2
      (by simp) (by simp [initial]) (by decide) (replicate_rom_at _ (by decide)) (by decide)
      (by decide)).2.2 (by decide),
   ((truncated_iff (List.replicate ROM_SIZE 0x15) (setPC (initial 0 []) 32766) 0x15 2
      (by simp) (by simp [initial]) (by decide) (replicate_rom_at _ (by decide)) (by decide)
      (by decide)).2.1 (by decide)).1⟩

end Checked

/-! ## Machine arithmetic -/

theorem and_255 (x : Nat) : x &&& 0xFF = x % 256 :=
  Nat.and_pow_two_sub_one_eq_mod x 8

theorem imm16_eq {lo : Nat} (hlo : lo < 256) (hi : Nat) : imm16 lo hi = lo + 256 * hi := by
  unfold imm16
  rw [Nat.shiftLeft_eq, Nat.or_comm, Nat.mul_comm, ← Nat.mul_add_lt_is_or (by simpa using hlo)]
  omega

theorem imm16_lt {lo hi : Nat} (hlo : lo < 256) (hhi : hi < 256) : imm16 lo hi < 65536 := by
  rw [imm16_eq hlo]
  omega

theorem u16_of_lt {x : Nat} (h : x < 65536) : u16 (x : Int) = x := by
  unfold u16
  omega

theorem u16_imm16 {lo hi : Nat} (hlo : lo < 256) (hhi : hi < 256) :
    u16 (imm16 lo hi) = lo + 256 * hi := by
  rw [u16_of_lt (imm16_lt hlo hhi), imm16_eq hlo]

namespace Checked

/-! ## Straight-line execution of one case -/

theorem CHECK_ROM_pos {m : Machine} {n : Nat} (k : Outcome) (h : m.cpu.PC + n ≤ ROM_SIZE) :
    CHECK_ROM m n k = k := by
  have hc : can_read m.cpu.PC n = true := by
    simp only [can_read, ROM_SIZE, SIZE_T_RANGE, decide_eq_true_eq] at *
    omega
  simp [CHECK_ROM, hc]

theorem romAt_some {rom : List Nat} {i b : Nat} (k : Nat → Outcome) (h : rom[i]? = some b) :
    romAt rom i k = k b := by
  simp [romAt, h]

theorem operands_some {rom : List Nat} {m : Machine} {lo hi : Nat} (k : Nat → Nat → Outcome)
    (h1 : rom[m.cpu.PC + 1]? = some lo) (h2 : rom[m.cpu.PC + 2]? = some hi) :
    operands rom m k = k lo hi := by
  simp [operands, romAt, h1, h2]

theorem CHECK_RAM_pos {m : Machine} {addr : Nat} (k : Outcome) (h : addr < RAM_SIZE) :
    CHECK_RAM m addr k = k := by
  simp [CHECK_RAM, h]

theorem ramAt_some {m : Machine} {addr v : Nat} (k : Nat → Outcome)
    (h : m.ram[addr]? = some v) : ramAt m addr k = k v := by
  simp [ramAt, h]

theorem ramSet_lt {m : Machine} {addr : Nat} (v : Nat) (k : Machine → Outcome)
    (h : addr < m.ram.length) :
    ramSet m addr v k = k { m with ram := m.ram.set addr v } := by
  simp [ramSet, h]

theorem advance_eq {m : Machine} {len : Nat} (h : m.cpu.PC + len < SIZE_T_RANGE) :
    advance m len = .running (setPC m (m.cpu.PC + len)) := by
  simp [advance, Nat.mod_eq_of_lt h]

/-! ## C3: the boundary of the data region -/

theorem CHECK_RAM_u16 (m : Machine) (x : Int) (k : Outcome) : CHECK_RAM m (u16 x) k = k :=
  CHECK_RAM_pos k (u16_lt x)

theorem dispatch_ne_ramOutOfBounds (rom : List Nat) (m : Machine) (op a p : Nat)
    (m1 : Machine) : dispatch rom m op ≠ .faulted (.ramOutOfBounds a p) m1 := by
  by_cases hop : op ≤ 0x31
  · interval_cases op <;>
      simp only [dispatch, CHECK_RAM_u16, CHECK_ROM, operands, romAt, ramAt, ramSet,
        advance] <;>
      (repeat' split) <;> simp
  · by_cases hff : op = 0xFF
    · subst hff
      simp [dispatch]
    · rw [dispatch_unknown rom m op (by omega) hff]
      simp

theorem step_ne_ramOutOfBounds (rom : List Nat) (m : Machine) (a p : Nat) (m1 : Machine) :
    step rom m ≠ .faulted (.ramOutOfBounds a p) m1 := by
  unfold step romAt
  split
  · simp
  · split
    · exact dispatch_ne_ramOutOfBounds rom m _ a p m1
    · simp

theorem dispatch_known_ne (rom : List Nat) (m : Machine) {op : Nat}
    (hop : op ≤ 0x31 ∨ op = 0xFF) (o p : Nat) (m1 : Machine) :
    dispatch rom m op ≠ .faulted (.unknownOpcode o p) m1 := by
  rcases hop with hop | hop
  · interval_cases op <;>
      simp only [dispatch, CHECK_ROM, CHECK_RAM, operands, romAt, ramAt, ramSet, advance] <;>
      (repeat' split) <;> simp
  · subst hop
    simp [dispatch]

theorem run_one (rom : List Nat) (m : Machine) : run rom 1 m = step rom m := by
  simp only [run]
  cases step rom m <;> rfl

theorem run_succ_running {rom : List Nat} {m m1 : Machine} (fuel : Nat)
    (h : step rom m = .running m1) : run rom (fuel + 1) m = run rom fuel m1 := by
  simp only [run, h]

/-- C4: in the checked variant, at a PC below 32768 the iteration ends with the
unknown-opcode fault exactly when the byte at the PC is neither in `0x00..0x31`
nor `0xFF`; the fault then carries that byte and the PC, and the exit status is
the failure status. -/
theorem unknown_opcode_iff (rom : List Nat) (m : Machine) (op : Nat)
    (hpc : m.cpu.PC < ROM_SIZE) (hop : rom[m.cpu.PC]? = some op) :
    ((∃ o p m1, step rom m = .faulted (.unknownOpcode o p) m1) ↔
        (¬ op ≤ 0x31 ∧ op ≠ 0xFF)) ∧
    ((¬ op ≤ 0x31 ∧ op ≠ 0xFF) →
        step rom m = .faulted (.unknownOpcode op m.cpu.PC)
          { m with stdout := m.stdout ++ [.diagnostic (.unknownOpcode op m.cpu.PC)] } ∧
        (step rom m).exitStatus = some EXIT_FAILURE) := by
  rw [step_fetch hpc hop]
  have h2 : (¬ op ≤ 0x31 ∧ op ≠ 0xFF) →
      dispatch rom m op = .faulted (.unknownOpcode op m.cpu.PC)
        { m with stdout := m.stdout ++ [.diagnostic (.unknownOpcode op m.cpu.PC)] } :=
    fun h => dispatch_unknown rom m op (by omega) h.2
  refine ⟨⟨?_, fun h => ⟨_, _, _, h2 h⟩⟩, fun h => ⟨h2 h, by rw [h2 h]; rfl⟩⟩
  rintro ⟨o, p, m1, hf⟩
  by_contra hk
  exact dispatch_known_ne rom m (by omega) o p m1 hf

/-- Witness for `unknown_opcode_iff`: the image `[0x7E]` faults at once, reporting
opcode `0x7E` at PC 0, and `main` returns the failure status. -/
theorem unknown_opcode_iff_witness :
    main 1 [0x7E] [] = .faulted (.unknownOpcode 0x7E 0)
      { initial 1 [] with stdout := [.loaded 1, .diagnostic (.unknownOpcode 0x7E 0)] } ∧
    (main 1 [0x7E] []).exitStatus = some EXIT_FAILURE := by
  have h := (unknown_opcode_iff (load_rom [0x7E]).1 (initial 1 []) 0x7E (by decide)
    (load_rom_getElem? _ (by decide))).2 (by decide)
  have hm : main 1 [0x7E] [] = step (load_rom [0x7E]).1 (initial 1 []) :=
    run_one _ _
  rw [hm]
  exact ⟨h.1, h.2⟩

/-! ## Effect of each instruction when its bytes fit in the code region -/

theorem lt_size_of_le_rom {n : Nat} (h : n ≤ ROM_SIZE) : n < SIZE_T_RANGE := by
  simp only [ROM_SIZE, SIZE_T_RANGE] at *
  omega

theorem advance_at (m1 : Machine) {pc len : Nat} (h : m1.cpu.PC = pc)
    (hlt : pc + len ≤ ROM_SIZE) : advance m1 len = .running (setPC m1 (pc + len)) := by
  subst h
  exact advance_eq (lt_size_of_le_rom hlt)

theorem dispatch_halt (rom : List Nat) (m : Machine) : dispatch rom m 0xFF = .halted m := by
  simp [dispatch]

theorem step_halt {rom : List Nat} {m : Machine} (hpc : m.cpu.PC < ROM_SIZE)
    (hop : rom[m.cpu.PC]? = some 0xFF) : step rom m = .halted m := by
  rw [step_fetch hpc hop, dispatch_halt]

theorem step_add8 {rom : List Nat} {m : Machine} (r : Reg) {b : Nat}
    (hpc : m.cpu.PC + 2 ≤ ROM_SIZE) (hop : rom[m.cpu.PC]? = some (0x00 + r.index))
    (h1 : rom[m.cpu.PC + 1]? = some b) :
    step rom m = .running (setPC (setReg m r (u16 (m.cpu.get r + b))) (m.cpu.PC + 2)) := by
  rw [step_fetch (by omega) hop]
  cases r <;>
    simp only [Reg.index, dispatch, CHECK_ROM_pos _ hpc, romAt_some _ h1, setReg,
      cpu_state.get] <;>
    exact advance_at _ rfl hpc

theorem step_sub8 {rom : List Nat} {m : Machine} (r : Reg) {b : Nat}
    (hpc : m.cpu.PC + 2 ≤ ROM_SIZE) (hop : rom[m.cpu.PC]? = some (0x04 + r.index))
    (h1 : rom[m.cpu.PC + 1]? = some b) :
    step rom m = .running (setPC (setReg m r (u16 (m.cpu.get r - b))) (m.cpu.PC + 2)) := by
  rw [step_fetch (by omega) hop]
  cases r <;>
    simp only [Reg.index, dispatch, CHECK_ROM_pos _ hpc, romAt_some _ h1, setReg,
      cpu_state.get] <;>
    exact advance_at _ rfl hpc

theorem step_inc {rom : List Nat} {m : Machine} (r : Reg)
    (hpc : m.cpu.PC + 1 ≤ ROM_SIZE) (hop : rom[m.cpu.PC]? = some (0x08 + r.index)) :
    step rom m = .running (setPC (setReg m r (u16 (m.cpu.get r + 1))) (m.cpu.PC + 1)) := by
  rw [step_fetch (by omega) hop]
  cases r <;>
    simp only [Reg.index, dispatch, setReg, cpu_state.get] <;>
    exact advance_at _ rfl hpc

theorem step_dec {rom : List Nat} {m : Machine} (r : Reg)
    (hpc : m.cpu.PC + 1 ≤ ROM_SIZE) (hop : rom[m.cpu.PC]? = some (0x0C + r.index)) :
    step rom m = .running (setPC (setReg m r (u16 (m.cpu.get r - 1))) (m.cpu.PC + 1)) := by
  rw [step_fetch (by omega) hop]
  cases r <;>
    simp only [Reg.index, dispatch, setReg, cpu_state.get] <;>
    exact advance_at _ rfl hpc

theorem step_mov8 {rom : List Nat} {m : Machine} (r : Reg) {b : Nat}
    (hpc : m.cpu.PC + 2 ≤ ROM_SIZE) (hop : rom[m.cpu.PC]? = some (0x10 + r.index))
    (h1 : rom[m.cpu.PC + 1]? = some b) :
    step rom m = .running (setPC (setReg m r b) (m.cpu.PC + 2)) := by
  rw [step_fetch (by omega) hop]
  cases r <;>
    simp only [Reg.index, dispatch, CHECK_ROM_pos _ hpc, romAt_some _ h1, setReg] <;>
    exact advance_at _ rfl hpc

theorem step_jmp {rom : List Nat} {m : Machine} {lo hi : Nat}
    (hpc : m.cpu.PC + 3 ≤ ROM_SIZE) (hop : rom[m.cpu.PC]? = some 0x14)
    (h1 : rom[m.cpu.PC + 1]? = some lo) (h2 : rom[m.cpu.PC + 2]? = some hi) :
    step rom m = .running (setPC m (u16 (imm16 lo hi))) := by
  rw [step_fetch (by omega) hop]
  simp only [dispatch, CHECK_ROM_pos _ hpc, operands_some _ h1 h2]

theorem step_add16 {rom : List Nat} {m : Machine} (r : Reg) {lo hi : Nat}
    (hpc : m.cpu.PC + 3 ≤ ROM_SIZE) (hop : rom[m.cpu.PC]? = some (0x15 + r.index))
    (h1 : rom[m.cpu.PC + 1]? = some lo) (h2 : rom[m.cpu.PC + 2]? = some hi) :
    step rom m
      = .running (setPC (setReg m r (u16 (m.cpu.get r + imm16 lo hi))) (m.cpu.PC + 3)) := by
  rw [step_fetch (by omega) hop]
  cases r <;>
    simp only [Reg.index, dispatch, CHECK_ROM_pos _ hpc, operands_some _ h1 h2, setReg,
      cpu_state.get] <;>
    exact advance_at _ rfl hpc

theorem step_sub16 {rom : List Nat} {m : Machine} (r : Reg) {lo hi : Nat}
    (hpc : m.cpu.PC + 3 ≤ ROM_SIZE) (hop : rom[m.cpu.PC]? = some (0x19 + r.index))
    (h1 : rom[m.cpu.PC + 1]? = some lo) (h2 : rom[m.cpu.PC + 2]? = some hi) :
    step rom m
      = .running (setPC (setReg m r (u16 (m.cpu.get r - imm16 lo hi))) (m.cpu.PC + 3)) := by
  rw [step_fetch (by omega) hop]
  cases r <;>
    simp only [Reg.index, dispatch, CHECK_ROM_pos _ hpc, operands_some _ h1 h2, setReg,
      cpu_state.get] <;>
    exact advance_at _ rfl hpc

theorem step_mov16 {rom : List Nat} {m : Machine} (r : Reg) {lo hi : Nat}
    (hpc : m.cpu.PC + 3 ≤ ROM_SIZE) (hop : rom[m.cpu.PC]? = some (0x1D + r.index))
    (h1 : rom[m.cpu.PC + 1]? = some lo) (h2 : rom[m.cpu.PC + 2]? = some hi) :
    step rom m = .running (setPC (setReg m r (u16 (imm16 lo hi))) (m.cpu.PC + 3)) := by
  rw [step_fetch (by omega) hop]
  cases r <;>
    simp only [Reg.index, dispatch, CHECK_ROM_pos _ hpc, operands_some _ h1 h2, setReg] <;>
    exact advance_at _ rfl hpc

theorem step_cmp {rom : List Nat} {m : Machine} {lo hi : Nat}
    (hpc : m.cpu.PC + 3 ≤ ROM_SIZE) (hop : rom[m.cpu.PC]? = some 0x21)
    (h1 : rom[m.cpu.PC + 1]? = some lo) (h2 : rom[m.cpu.PC + 2]? = some hi) :
    step rom m
      = .running (setPC (setZ m (decide (m.cpu.A = imm16 lo hi))) (m.cpu.PC + 3)) := by
  rw [step_fetch (by omega) hop]
  simp only [dispatch, CHECK_ROM_pos _ hpc, operands_some _ h1 h2]
  by_cases h : m.cpu.A = imm16 lo hi
  · rw [if_pos h, decide_eq_true h]
    exact advance_at _ rfl hpc
  · rw [if_neg h, decide_eq_false h]
    exact advance_at _ rfl hpc

theorem step_jz {rom : List Nat} {m : Machine} {lo hi : Nat}
    (hpc : m.cpu.PC + 3 ≤ ROM_SIZE) (hop : rom[m.cpu.PC]? = some 0x22)
    (h1 : rom[m.cpu.PC + 1]? = some lo) (h2 : rom[m.cpu.PC + 2]? = some hi) :
    step rom m = .running (setPC m (if m.cpu.Z = true then imm16 lo hi else m.cpu.PC + 3)) := by
  rw [step_fetch (by omega) hop]
  simp only [dispatch, CHECK_ROM_pos _ hpc, operands_some _ h1 h2]
  by_cases h : m.cpu.Z = true
  · rw [if_pos h, if_pos h]
  · rw [if_neg h, if_neg h]
    exact advance_at _ rfl hpc

theorem step_jnz {rom : List Nat} {m : Machine} {lo hi : Nat}
    (hpc : m.cpu.PC + 3 ≤ ROM_SIZE) (hop : rom[m.cpu.PC]? = some 0x23)
    (h1 : rom[m.cpu.PC + 1]? = some lo) (h2 : rom[m.cpu.PC + 2]? = some hi) :
    step rom m
      = .running (setPC m (if m.cpu.Z = false then imm16 lo hi else m.cpu.PC + 3)) := by
  rw [step_fetch (by omega) hop]
  simp only [dispatch, CHECK_ROM_pos _ hpc, operands_some _ h1 h2]
  cases h : m.cpu.Z
  · simp
  · simp only [Bool.not_true, Bool.false_eq_true, if_false]
    exact advance_at _ rfl hpc

theorem step_load {rom : List Nat} {m : Machine} (r : Reg) {lo hi v : Nat}
    (hpc : m.cpu.PC + 3 ≤ ROM_SIZE) (hop : rom[m.cpu.PC]? = some (0x24 + r.index))
    (h1 : rom[m.cpu.PC + 1]? = some lo) (h2 : rom[m.cpu.PC + 2]? = some hi)
    (hv : m.ram[u16 (imm16 lo hi)]? = some v) :
    step rom m = .running (setPC (setReg m r v) (m.cpu.PC + 3)) := by
  rw [step_fetch (by omega) hop]
  cases r <;>
    simp only [Reg.index, dispatch, CHECK_ROM_pos _ hpc, operands_some _ h1 h2,
      CHECK_RAM_pos _ (u16_lt _), ramAt_some _ hv, setReg] <;>
    exact advance_at _ rfl hpc

theorem step_store {rom : List Nat} {m : Machine} (r : Reg) {lo hi : Nat}
    (hpc : m.cpu.PC + 3 ≤ ROM_SIZE) (hop : rom[m.cpu.PC]? = some (0x28 + r.index))
    (h1 : rom[m.cpu.PC + 1]? = some lo) (h2 : rom[m.cpu.PC + 2]? = some hi)
    (hlen : u16 (imm16 lo hi) < m.ram.length) :
    step rom m
      = .running (setPC
          { m with ram := m.ram.set (u16 (imm16 lo hi)) (m.cpu.get r % 256) }
          (m.cpu.PC + 3)) := by
  rw [step_fetch (by omega) hop]
  cases r <;>
    simp only [Reg.index, dispatch, CHECK_ROM_pos _ hpc, operands_some _ h1 h2,
      CHECK_RAM_pos _ (u16_lt _), ramSet_lt _ _ hlen, cpu_state.get, and_255] <;>
    exact advance_at _ rfl hpc

/-! ## C5: MOV, ADD, HALT -/

theorem run_succ_halted {rom : List Nat} {m m1 : Machine} (fuel : Nat)
    (h : step rom m = .halted m1) : run rom (fuel + 1) m = .halted m1 := by
  simp only [run, h]

theorem main_eq (fuel : Nat) (file stdin : List Nat) {n : Nat} (h : (load_rom file).2 = n) :
    main fuel file stdin = run (load_rom file).1 fuel (initial n stdin) := by
  rw [main, h]

/-- C5: in the checked variant, for all bytes `x`, `y`, `main` on the image
`[0x10, x, 0x00, y, 0xFF]` (MOV A,x; ADD A,y; HALT) halts in its third iteration
with the success status, `A = x + y`, `B`, `C`, `D` zero and the data region all
zero; more fuel does not change the result. -/
theorem mov_add_halt (x y : Nat) (hx : x < 256) (hy : y < 256) (stdin : List Nat)
    (fuel : Nat) :
    main (fuel + 3) [0x10, x, 0x00, y, 0xFF] stdin
      = .halted (setPC (setA (initial 5 stdin) (x + y)) 4) ∧
    (main (fuel + 3) [0x10, x, 0x00, y, 0xFF] stdin).exitStatus = some EXIT_SUCCESS ∧
    (setPC (setA (initial 5 stdin) (x + y)) 4).cpu.A = x + y ∧
    (setPC (setA (initial 5 stdin) (x + y)) 4).cpu.B = 0 ∧
    (setPC (setA (initial 5 stdin) (x + y)) 4).cpu.C = 0 ∧
    (setPC (setA (initial 5 stdin) (x + y)) 4).cpu.D = 0 ∧
    (setPC (setA (initial 5 stdin) (x + y)) 4).ram = List.replicate RAM_SIZE 0 := by
  have hrom : ∀ i, i < 32768 → (load_rom [0x10, x, 0x00, y, 0xFF]).1[i]?
      = some ([0x10, x, 0x00, y, 0xFF].getD i 0) := fun i hi => load_rom_getElem? _ hi
  have hu2 : u16 ((x : Nat) + (y : Int)) = x + y := by
    unfold u16
    omega
  have h1 : step (load_rom [0x10, x, 0x00, y, 0xFF]).1 (initial 5 stdin)
      = .running (setPC (setA (initial 5 stdin) x) 2) :=
    step_mov8 .A (show (0 : Nat) + 2 ≤ 32768 by decide) (hrom 0 (by decide))
      (hrom 1 (by decide))
  have h2 : step (load_rom [0x10, x, 0x00, y, 0xFF]).1 (setPC (setA (initial 5 stdin) x) 2)
      = .running (setPC (setA (initial 5 stdin) (x + y)) 4) := by
    rw [step_add8 .A (show (2 : Nat) + 2 ≤ 32768 by decide) (hrom 2 (by decide))
      (hrom 3 (by decide))]
    show Outcome.running (setPC (setA (initial 5 stdin) (u16 ((x : Nat) + (y : Int)))) 4) = _
    rw [hu2]
  have h3 : step (load_rom [0x10, x, 0x00, y, 0xFF]).1
      (setPC (setA (initial 5 stdin) (x + y)) 4)
      = .halted (setPC (setA (initial 5 stdin) (x + y)) 4) :=
    step_halt (show (4 : Nat) < 32768 by decide) (hrom 4 (by decide))
  have h5 : (load_rom [0x10, x, 0x00, y, 0xFF]).2 = 5 :=
    Nat.min_eq_left (show 5 ≤ 32768 by decide)
  have hm : main (fuel + 3) [0x10, x, 0x00, y, 0xFF] stdin
      = .halted (setPC (setA (initial 5 stdin) (x + y)) 4) := by
    rw [main_eq _ _ _ h5, run_succ_running _ h1, run_succ_running _ h2, run_succ_halted _ h3]
  rw [hm]
  exact ⟨rfl, rfl, rfl, rfl, rfl, rfl, rfl⟩

/-- Witness for `mov_add_halt`: the image `[0x10, 5, 0x00, 3, 0xFF]` halts with
`A = 8` and the success status. -/
theorem mov_add_halt_witness :
    main 3 [0x10, 0x05, 0x00, 0x03, 0xFF] []
      = .halted (setPC (setA (initial 5 []) 8) 4) ∧
    (main 3 [0x10, 0x05, 0x00, 0x03, 0xFF] []).exitStatus = some EXIT_SUCCESS ∧
    (setPC (setA (initial 5 []) 8) 4).cpu.A = 8 :=
  ⟨(mov_add_halt 5 3 (by decide) (by decide) [] 0).1,
   (mov_add_halt 5 3 (by decide) (by decide) [] 0).2.1, rfl⟩

end Checked

/-! ## Registers -/

@[simp] theorem setReg_pc (m : Machine) (r : Reg) (v : Nat) :
    (setReg m r v).cpu.PC = m.cpu.PC := by
  cases r <;> rfl

@[simp] theorem setReg_ram (m : Machine) (r : Reg) (v : Nat) :
    (setReg m r v).ram = m.ram := by
  cases r <;> rfl

@[simp] theorem get_setReg (m : Machine) (r : Reg) (v : Nat) :
    (setReg m r v).cpu.get r = v := by
  cases r <;> rfl

@[simp] theorem get_setPC (m : Machine) (pc : Nat) (r : Reg) :
    (setPC m pc).cpu.get r = m.cpu.get r := by
  cases r <;> rfl

theorem setReg_setPC_setReg (m : Machine) (r : Reg) (v w pc : Nat) :
    setReg (setPC (setReg m r v) pc) r w = setPC (setReg m r w) pc := by
  cases r <;> rfl

theorem setReg_get (m : Machine) (r : Reg) : setReg m r (m.cpu.get r) = m := by
  cases r <;> rfl

theorem setPC_setPC (m : Machine) (p q : Nat) : setPC (setPC m p) q = setPC m q := rfl

namespace Checked

theorem run_two {rom : List Nat} {m m1 m2 : Machine}
    (h1 : step rom m = .running m1) (h2 : step rom m1 = .running m2) :
    run rom 2 m = .running m2 := by
  rw [run_succ_running 1 h1, run_succ_running 0 h2]
  rfl

/-! ## C6: compare and conditional jumps -/

/-- C6: in the checked variant, whatever `Z` held before, `CMP A, imm16` (`0x21`)
leaves `Z` true exactly when `A` equals the immediate; `JZ t` (`0x22`) sets
`PC = t` when `Z` is true and otherwise advances by 3; `JNZ t` (`0x23`) sets
`PC = t` when `Z` is false and otherwise advances by 3.  Hence `CMP A, v`
followed by `JZ t` ends at `t` when `A = v` and at the byte after the `JZ`
otherwise, and `CMP A, v` followed by `JNZ t` does the opposite. -/
theorem cmp_jz_jnz (rom : List Nat) (m : Machine) (lo hi tlo thi : Nat)
    (h1 : rom[m.cpu.PC + 1]? = some lo) (h2 : rom[m.cpu.PC + 2]? = some hi) :
    (m.cpu.PC + 3 ≤ ROM_SIZE → rom[m.cpu.PC]? = some 0x21 →
      step rom m = .running (setPC (setZ m (decide (m.cpu.A = imm16 lo hi))) (m.cpu.PC + 3)) ∧
      ((setPC (setZ m (decide (m.cpu.A = imm16 lo hi))) (m.cpu.PC + 3)).cpu.Z = true ↔
        m.cpu.A = imm16 lo hi)) ∧
    (m.cpu.PC + 3 ≤ ROM_SIZE → rom[m.cpu.PC]? = some 0x22 →
      step rom m
        = .running (setPC m (if m.cpu.Z = true then imm16 lo hi else m.cpu.PC + 3))) ∧
    (m.cpu.PC + 3 ≤ ROM_SIZE → rom[m.cpu.PC]? = some 0x23 →
      step rom m
        = .running (setPC m (if m.cpu.Z = false then imm16 lo hi else m.cpu.PC + 3))) ∧
    (m.cpu.PC + 6 ≤ ROM_SIZE → rom[m.cpu.PC]? = some 0x21 →
      rom[m.cpu.PC + 4]? = some tlo → rom[m.cpu.PC + 5]? = some thi →
      (rom[m.cpu.PC + 3]? = some 0x22 →
        run rom 2 m = .running (setPC (setZ m (decide (m.cpu.A = imm16 lo hi)))
          (if m.cpu.A = imm16 lo hi then imm16 tlo thi else m.cpu.PC + 6))) ∧
      (rom[m.cpu.PC + 3]? = some 0x23 →
        run rom 2 m = .running (setPC (setZ m (decide (m.cpu.A = imm16 lo hi)))
          (if m.cpu.A = imm16 lo hi then m.cpu.PC + 6 else imm16 tlo thi)))) := by
  refine ⟨fun hpc hop => ⟨step_cmp hpc hop h1 h2, by simp [setPC, setZ]⟩,
    fun hpc hop => step_jz hpc hop h1 h2, fun hpc hop => step_jnz hpc hop h1 h2,
    fun hpc hop h4 h5 => ⟨fun h3 => ?_, fun h3 => ?_⟩⟩
  · refine run_two (step_cmp (by omega) hop h1 h2) ?_
    rw [@step_jz rom _ tlo thi (show m.cpu.PC + 3 + 3 ≤ ROM_SIZE from hpc) h3 h4 h5]
    by_cases h : m.cpu.A = imm16 lo hi <;> simp [h, setPC, setZ]
  · refine run_two (step_cmp (by omega) hop h1 h2) ?_
    rw [@step_jnz rom _ tlo thi (show m.cpu.PC + 3 + 3 ≤ ROM_SIZE from hpc) h3 h4 h5]
    by_cases h : m.cpu.A = imm16 lo hi <;> simp [h, setPC, setZ]

/-- Witness for `cmp_jz_jnz`: with `A = 5`, the image `CMP A,5; JZ 0x0010`
sets `Z` and ends at PC 16; with `A = 6` it clears `Z` and ends at PC 6. -/
theorem cmp_jz_jnz_witness :
    run (load_rom [0x21, 5, 0, 0x22, 0x10, 0]).1 2 (setA (initial 6 []) 5)
      = .running (setPC (setZ (setA (initial 6 []) 5) true) 16) ∧
    run (load_rom [0x21, 5, 0, 0x22, 0x10, 0]).1 2 (setZ (setA (initial 6 []) 6) true)
      = .running (setPC (setZ (setA (initial 6 []) 6) false) 6) :=
  ⟨((cmp_jz_jnz (load_rom [0x21, 5, 0, 0x22, 0x10, 0]).1 (setA (initial 6 []) 5) 5 0 0x10 0
      (load_rom_getElem? _ (by decide)) (load_rom_getElem? _ (by decide))).2.2.2
      (by decide) (load_rom_getElem? _ (by decide)) (load_rom_getElem? _ (by decide))
      (load_rom_getElem? _ (by decide))).1 (load_rom_getElem? _ (by decide)),
   ((cmp_jz_jnz (load_rom [0x21, 5, 0, 0x22, 0x10, 0]).1 (setZ (setA (initial 6 []) 6) true)
      5 0 0x10 0
      (load_rom_getElem? _ (by decide)) (load_rom_getElem? _ (by decide))).2.2.2
      (by decide) (load_rom_getElem? _ (by decide)) (load_rom_getElem? _ (by decide))
      (load_rom_getElem? _ (by decide))).1 (load_rom_getElem? _ (by decide))⟩

/-! ## C7: STORE then LOAD -/

theorem u16_imm16_split {addr : Nat} (haddr : addr < 65536) :
    u16 (imm16 (addr % 256) (addr / 256)) = addr := by
  rw [u16_imm16 (Nat.mod_lt _ (by decide)) (by omega)]
  omega

/-- C7: in the checked variant, for all registers `r`, `r2` and every address
`addr` in `0..65535`, `STORE r, [addr]` followed by `LOAD r2, [addr]` completes
both instructions without a fault and leaves in `r2` the low 8 bits of the value
`r` held at the store, the high byte zero; data-region byte `addr` holds the
same value. -/
theorem store_then_load (rom : List Nat) (m : Machine) (r r2 : Reg) (addr : Nat)
    (haddr : addr < 65536) (hram : m.ram.length = RAM_SIZE)
    (hpc : m.cpu.PC + 6 ≤ ROM_SIZE)
    (h0 : rom[m.cpu.PC]? = some (0x28 + r.index))
    (h1 : rom[m.cpu.PC + 1]? = some (addr % 256))
    (h2 : rom[m.cpu.PC + 2]? = some (addr / 256))
    (h3 : rom[m.cpu.PC + 3]? = some (0x24 + r2.index))
    (h4 : rom[m.cpu.PC + 4]? = some (addr % 256))
    (h5 : rom[m.cpu.PC + 5]? = some (addr / 256)) :
    step rom m = .running
      (setPC { m with ram := m.ram.set addr (m.cpu.get r % 256) } (m.cpu.PC + 3)) ∧
    run rom 2 m = .running
      (setPC (setReg { m with ram := m.ram.set addr (m.cpu.get r % 256) } r2
        (m.cpu.get r % 256)) (m.cpu.PC + 6)) ∧
    (setPC (setReg { m with ram := m.ram.set addr (m.cpu.get r % 256) } r2
        (m.cpu.get r % 256)) (m.cpu.PC + 6)).cpu.get r2 = m.cpu.get r % 256 ∧
    (m.ram.set addr (m.cpu.get r % 256))[addr]? = some (m.cpu.get r % 256) := by
  have ha := u16_imm16_split haddr
  have hlen : addr < m.ram.length := by rw [hram]; exact haddr
  have hget : (m.ram.set addr (m.cpu.get r % 256))[addr]? = some (m.cpu.get r % 256) := by
    simp [List.getElem?_set, hlen]
  have hs1 : step rom m = .running
      (setPC { m with ram := m.ram.set addr (m.cpu.get r % 256) } (m.cpu.PC + 3)) := by
    rw [step_store r (by omega) h0 h1 h2 (by rw [ha]; exact hlen), ha]
  have hs2 : step rom (setPC { m with ram := m.ram.set addr (m.cpu.get r % 256) }
      (m.cpu.PC + 3)) = .running
      (setPC (setReg { m with ram := m.ram.set addr (m.cpu.get r % 256) } r2
        (m.cpu.get r % 256)) (m.cpu.PC + 6)) := by
    rw [@step_load rom _ r2 (addr % 256) (addr / 256) (m.cpu.get r % 256)
      (show m.cpu.PC + 3 + 3 ≤ ROM_SIZE from hpc) h3 h4 h5 (by rw [ha]; exact hget)]
    cases r2 <;> rfl
  exact ⟨hs1, run_two hs1 hs2, by simp, hget⟩

/-- Witness for `store_then_load`: with `B = 0x1234`, `STORE B, [0x0102]` then
`LOAD D, [0x0102]` leaves `D = 0x34`. -/
theorem store_then_load_witness :
    run (load_rom [0x29, 0x02, 0x01, 0x27, 0x02, 0x01]).1 2 (setB (initial 6 []) 0x1234)
      = .running (setPC (setReg { setB (initial 6 []) 0x1234 with
          ram := (setB (initial 6 []) 0x1234).ram.set 0x0102 0x34 } .D 0x34) 6) :=
  (store_then_load (load_rom [0x29, 0x02, 0x01, 0x27, 0x02, 0x01]).1
    (setB (initial 6 []) 0x1234) .B .D 0x0102 (by decide) (by simp [initial]) (by decide)
    (load_rom_getElem? _ (by decide)) (load_rom_getElem? _ (by decide))
    (load_rom_getElem? _ (by decide)) (load_rom_getElem? _ (by decide))
    (load_rom_getElem? _ (by decide)) (load_rom_getElem? _ (by decide))).2.1

/-! ## C10: 16-bit immediates -/

/-- C10: in the checked variant the two operand bytes `lo`, `hi` are decoded
little-endian, `imm16 = lo + 256 * hi`; `ADD r, imm16` (`0x15 + i`) leaves
`(v + imm16) mod 65536` in `r`, `SUB r, imm16` (`0x19 + i`) leaves
`(v - imm16) mod 65536`, and `MOV r, imm16` (`0x1D + i`) leaves `imm16`, where `v`
is the value of `r` before; each of them completes and the loop goes on at
`PC + 3`, also when the sum or difference leaves the 16-bit range. -/
theorem imm16_arith (rom : List Nat) (m : Machine) (r : Reg) (lo hi : Nat)
    (hlo : lo < 256) (hhi : hi < 256) (hpc : m.cpu.PC + 3 ≤ ROM_SIZE)
    (h1 : rom[m.cpu.PC + 1]? = some lo) (h2 : rom[m.cpu.PC + 2]? = some hi) :
    imm16 lo hi = lo + 256 * hi ∧
    (rom[m.cpu.PC]? = some (0x15 + r.index) →
      step rom m = .running
        (setPC (setReg m r ((m.cpu.get r + (lo + 256 * hi)) % 65536)) (m.cpu.PC + 3))) ∧
    (rom[m.cpu.PC]? = some (0x19 + r.index) →
      ∃ n, step rom m = .running (setPC (setReg m r n) (m.cpu.PC + 3)) ∧
        (n : Int) = ((m.cpu.get r : Int) - ((lo : Int) + 256 * (hi : Int))) % 65536) ∧
    (rom[m.cpu.PC]? = some (0x1D + r.index) →
      step rom m = .running (setPC (setReg m r (lo + 256 * hi)) (m.cpu.PC + 3))) := by
  have hi16 := imm16_eq hlo hi
  refine ⟨hi16, fun h0 => ?_, fun h0 => ⟨_, step_sub16 r hpc h0 h1 h2, ?_⟩, fun h0 => ?_⟩
  · rw [step_add16 r hpc h0 h1 h2, hi16]
    have hu : u16 ((m.cpu.get r : Int) + ((lo + 256 * hi : Nat) : Int))
        = (m.cpu.get r + (lo + 256 * hi)) % 65536 := by
      unfold u16
      omega
    rw [hu]
  · rw [hi16]
    unfold u16
    omega
  · rw [step_mov16 r hpc h0 h1 h2, u16_imm16 hlo hhi]

/-- Witness for `imm16_arith`: `ADD A, 0x0102` on `A = 0xFFFF` wraps to `0x0101`,
`SUB B, 0x0102` on `B = 0` wraps to `0xFEFE`, and `MOV D, 0x0102` gives 258. -/
theorem imm16_arith_witness :
    imm16 0x02 0x01 = 258 ∧
    step (load_rom [0x15, 0x02, 0x01]).1 (setA (initial 3 []) 0xFFFF)
      = .running (setPC (setA (initial 3 []) 0x0101) 3) ∧
    (∃ n, step (load_rom [0x1A, 0x02, 0x01]).1 (initial 3 [])
        = .running (setPC (setB (initial 3 []) n) 3) ∧ (n : Int) = (0 - 258) % 65536) ∧
    step (load_rom [0x20, 0x02, 0x01]).1 (initial 3 [])
      = .running (setPC (setD (initial 3 []) 258) 3) :=
  ⟨(imm16_arith (load_rom [0x15, 0x02, 0x01]).1 (setA (initial 3 []) 0xFFFF) .A 0x02 0x01
      (by decide) (by decide) (by decide) (load_rom_getElem? _ (by decide))
      (load_rom_getElem? _ (by decide))).1,
   (imm16_arith (load_rom [0x15, 0x02, 0x01]).1 (setA (initial 3 []) 0xFFFF) .A 0x02 0x01
      (by decide) (by decide) (by decide) (load_rom_getElem? _ (by decide))
      (load_rom_getElem? _ (by decide))).2.1 (load_rom_getElem? _ (by decide)),
   (imm16_arith (load_rom [0x1A, 0x02, 0x01]).1 (initial 3 []) .B 0x02 0x01
      (by decide) (by decide) (by decide) (load_rom_getElem? _ (by decide))
      (load_rom_getElem? _ (by decide))).2.2.1 (load_rom_getElem? _ (by decide)),
   (imm16_arith (load_rom [0x20, 0x02, 0x01]).1 (initial 3 []) .D 0x02 0x01
      (by decide) (by decide) (by decide) (load_rom_getElem? _ (by decide))
      (load_rom_getElem? _ (by decide))).2.2.2 (load_rom_getElem? _ (by decide))⟩

end Checked

/-! ## The unchecked variant on the instructions of C8 and C9 -/

namespace Unchecked

theorem step_fetch_unchecked {rom : List Nat} {m : Machine} {op : Nat}
    (hpc : m.cpu.PC < ROM_SIZE) (hop : rom[m.cpu.PC]? = some op) :
    step rom m = dispatch rom m op := by
  simp [step, hpc, romAt, hop]

theorem advance_at_unchecked (m1 : Machine) {pc len : Nat} (h : m1.cpu.PC = pc)
    (hlt : pc + len ≤ ROM_SIZE) : advance m1 len = .running (setPC m1 (pc + len)) := by
  subst h
  have : m1.cpu.PC + len ≤ INT_MAX := by
    simp only [ROM_SIZE, INT_MAX] at *
    omega
  simp [advance, this]

theorem step_add8_unchecked {rom : List Nat} {m : Machine} (r : Reg) {b : Nat}
    (hpc : m.cpu.PC + 2 ≤ ROM_SIZE) (hop : rom[m.cpu.PC]? = some (0x00 + r.index))
    (h1 : rom[m.cpu.PC + 1]? = some b) :
    step rom m = .running (setPC (setReg m r (u16 (m.cpu.get r + b))) (m.cpu.PC + 2)) := by
  rw [step_fetch_unchecked (by omega) hop]
  cases r <;>
    simp only [Reg.index, dispatch, Checked.romAt_some _ h1, setReg, cpu_state.get] <;>
    exact advance_at_unchecked _ rfl hpc

theorem step_inc_unchecked {rom : List Nat} {m : Machine} (r : Reg)
    (hpc : m.cpu.PC + 1 ≤ ROM_SIZE) (hop : rom[m.cpu.PC]? = some (0x08 + r.index)) :
    step rom m = .running (setPC (setReg m r (u16 (m.cpu.get r + 1))) (m.cpu.PC + 1)) := by
  rw [step_fetch_unchecked (by omega) hop]
  cases r <;>
    simp only [Reg.index, dispatch, setReg, cpu_state.get] <;>
    exact advance_at_unchecked _ rfl hpc

theorem step_dec_unchecked {rom : List Nat} {m : Machine} (r : Reg)
    (hpc : m.cpu.PC + 1 ≤ ROM_SIZE) (hop : rom[m.cpu.PC]? = some (0x0C + r.index)) :
    step rom m = .running (setPC (setReg m r (u16 (m.cpu.get r - 1))) (m.cpu.PC + 1)) := by
  rw [step_fetch_unchecked (by omega) hop]
  cases r <;>
    simp only [Reg.index, dispatch, setReg, cpu_state.get] <;>
    exact advance_at_unchecked _ rfl hpc

theorem step_mov8_unchecked {rom : List Nat} {m : Machine} (r : Reg) {b : Nat}
    (hpc : m.cpu.PC + 2 ≤ ROM_SIZE) (hop : rom[m.cpu.PC]? = some (0x10 + r.index))
    (h1 : rom[m.cpu.PC + 1]? = some b) :
    step rom m = .running (setPC (setReg m r b) (m.cpu.PC + 2)) := by
  rw [step_fetch_unchecked (by omega) hop]
  cases r <;>
    simp only [Reg.index, dispatch, Checked.romAt_some _ h1, setReg] <;>
    exact advance_at_unchecked _ rfl hpc

theorem run_succ_running_unchecked {rom : List Nat} {m m1 : Machine} (fuel : Nat)
    (h : step rom m = .running m1) : run rom (fuel + 1) m = run rom fuel m1 := by
  simp only [run, h]

theorem run_two_unchecked {rom : List Nat} {m m1 m2 : Machine}
    (h1 : step rom m = .running m1) (h2 : step rom m1 = .running m2) :
    run rom 2 m = .running m2 := by
  rw [run_succ_running_unchecked 1 h1, run_succ_running_unchecked 0 h2]
  rfl

end Unchecked

/-! ## Both variants -/

theorem Variant.both_run_two (variant : Variant) {rom : List Nat} {m m1 m2 : Machine}
    (h1 : variant.step rom m = .running m1) (h2 : variant.step rom m1 = .running m2) :
    variant.run rom 2 m = .running m2 := by
  cases variant
  · exact Checked.run_two h1 h2
  · exact Unchecked.run_two_unchecked h1 h2

theorem Variant.both_step_add8 (variant : Variant) {rom : List Nat} {m : Machine} (r : Reg)
    {b : Nat} (hpc : m.cpu.PC + 2 ≤ ROM_SIZE) (hop : rom[m.cpu.PC]? = some (0x00 + r.index))
    (h1 : rom[m.cpu.PC + 1]? = some b) :
    variant.step rom m
      = .running (setPC (setReg m r (u16 (m.cpu.get r + b))) (m.cpu.PC + 2)) := by
  cases variant
  · exact Checked.step_add8 r hpc hop h1
  · exact Unchecked.step_add8_unchecked r hpc hop h1

theorem Variant.both_step_inc (variant : Variant) {rom : List Nat} {m : Machine} (r : Reg)
    (hpc : m.cpu.PC + 1 ≤ ROM_SIZE) (hop : rom[m.cpu.PC]? = some (0x08 + r.index)) :
    variant.step rom m
      = .running (setPC (setReg m r (u16 (m.cpu.get r + 1))) (m.cpu.PC + 1)) := by
  cases variant
  · exact Checked.step_inc r hpc hop
  · exact Unchecked.step_inc_unchecked r hpc hop

theorem Variant.both_step_dec (variant : Variant) {rom : List Nat} {m : Machine} (r : Reg)
    (hpc : m.cpu.PC + 1 ≤ ROM_SIZE) (hop : rom[m.cpu.PC]? = some (0x0C + r.index)) :
    variant.step rom m
      = .running (setPC (setReg m r (u16 (m.cpu.get r - 1))) (m.cpu.PC + 1)) := by
  cases variant
  · exact Checked.step_dec r hpc hop
  · exact Unchecked.step_dec_unchecked r hpc hop

theorem Variant.both_step_mov8 (variant : Variant) {rom : List Nat} {m : Machine} (r : Reg)
    {b : Nat} (hpc : m.cpu.PC + 2 ≤ ROM_SIZE) (hop : rom[m.cpu.PC]? = some (0x10 + r.index))
    (h1 : rom[m.cpu.PC + 1]? = some b) :
    variant.step rom m = .running (setPC (setReg m r b) (m.cpu.PC + 2)) := by
  cases variant
  · exact Checked.step_mov8 r hpc hop h1
  · exact Unchecked.step_mov8_unchecked r hpc hop h1

/-! ## C8: INC then DEC -/

theorem u16_inc_dec {v : Nat} (hv : v < 65536) : u16 ((u16 ((v : Int) + 1) : Nat) - 1) = v := by
  unfold u16
  omega

theorem u16_dec_inc {v : Nat} (hv : v < 65536) : u16 ((u16 ((v : Int) - 1) : Nat) + 1) = v := by
  unfold u16
  omega

theorem u16_succ (v : Nat) : u16 ((v : Int) + 1) = (v + 1) % 65536 := by
  unfold u16
  omega

theorem u16_pred (v : Nat) : u16 ((v : Int) - 1) = (v + 65535) % 65536 := by
  unfold u16
  omega

/-- C8: in both variants, for every register `r` holding a 16-bit value `v`,
`INC r` (`0x08 + i`) leaves `(v + 1) mod 65536` in `r` and a following `DEC r`
(`0x0C + i`) returns it to `v`; in the other order `DEC r` leaves
`(v - 1) mod 65536` and `INC r` returns it to `v`.  After the pair only the PC
differs from the state before it: the other registers, `Z`, the data region and
the console are unchanged. -/
theorem inc_dec_roundtrip (variant : Variant) (rom : List Nat) (m : Machine) (r : Reg)
    (hv : m.cpu.get r < 65536) (hpc : m.cpu.PC + 2 ≤ ROM_SIZE) :
    (rom[m.cpu.PC]? = some (0x08 + r.index) → rom[m.cpu.PC + 1]? = some (0x0C + r.index) →
      variant.step rom m
        = .running (setPC (setReg m r ((m.cpu.get r + 1) % 65536)) (m.cpu.PC + 1)) ∧
      variant.run rom 2 m = .running (setPC m (m.cpu.PC + 2))) ∧
    (rom[m.cpu.PC]? = some (0x0C + r.index) → rom[m.cpu.PC + 1]? = some (0x08 + r.index) →
      variant.step rom m
        = .running (setPC (setReg m r ((m.cpu.get r + 65535) % 65536)) (m.cpu.PC + 1)) ∧
      variant.run rom 2 m = .running (setPC m (m.cpu.PC + 2))) := by
  constructor
  · intro h0 h1
    have hs1 := variant.both_step_inc r (show m.cpu.PC + 1 ≤ ROM_SIZE by omega) h0
    have hs2 := @Variant.both_step_dec variant rom
      (setPC (setReg m r (u16 (m.cpu.get r + 1))) (m.cpu.PC + 1)) r
      (show m.cpu.PC + 1 + 1 ≤ ROM_SIZE from hpc) (by simpa using h1)
    refine ⟨by rw [hs1, u16_succ], ?_⟩
    rw [variant.both_run_two hs1 hs2]
    simp only [get_setPC, get_setReg, u16_inc_dec hv, setReg_setPC_setReg, setReg_get]
    rfl
  · intro h0 h1
    have hs1 := variant.both_step_dec r (show m.cpu.PC + 1 ≤ ROM_SIZE by omega) h0
    have hs2 := @Variant.both_step_inc variant rom
      (setPC (setReg m r (u16 (m.cpu.get r - 1))) (m.cpu.PC + 1)) r
      (show m.cpu.PC + 1 + 1 ≤ ROM_SIZE from hpc) (by simpa using h1)
    refine ⟨by rw [hs1, u16_pred], ?_⟩
    rw [variant.both_run_two hs1 hs2]
    simp only [get_setPC, get_setReg, u16_dec_inc hv, setReg_setPC_setReg, setReg_get]
    rfl

/-- Witness for `inc_dec_roundtrip`: the wraparound cases.  In the checked
variant with `A = 65535`, `INC A` gives 0 and `DEC A` restores 65535; in the
unchecked variant with `C = 0`, `DEC C` gives 65535 and `INC C` restores 0. -/
theorem inc_dec_roundtrip_witness :
    (Checked.step (load_rom [0x08, 0x0C]).1 (setA (initial 2 []) 65535)
        = .running (setPC (setA (initial 2 []) 0) 1) ∧
      Checked.run (load_rom [0x08, 0x0C]).1 2 (setA (initial 2 []) 65535)
        = .running (setPC (setA (initial 2 []) 65535) 2)) ∧
    (Unchecked.step (load_rom [0x0E, 0x0A]).1 (initial 2 [])
        = .running (setPC (setC (initial 2 []) 65535) 1) ∧
      Unchecked.run (load_rom [0x0E, 0x0A]).1 2 (initial 2 [])
        = .running (setPC (initial 2 []) 2)) :=
  ⟨(inc_dec_roundtrip .checked (load_rom [0x08, 0x0C]).1 (setA (initial 2 []) 65535)
      .A (by decide) (by decide)).1
      (load_rom_getElem? _ (by decide)) (load_rom_getElem? _ (by decide)),
   (inc_dec_roundtrip .unchecked (load_rom [0x0E, 0x0A]).1 (initial 2 []) .C
      (by decide) (by decide)).2
      (load_rom_getElem? _ (by decide)) (load_rom_getElem? _ (by decide))⟩

/-! ## C9: MOV imm8 then ADD imm8 -/

/-- C9: in both variants, for every register `r` and every byte `imm8`,
`MOV r, imm8` (`0x10 + i`) followed by `ADD r, imm8` (`0x00 + i`) leaves
`r = 2 * imm8` (up to 510, no wrap at 256), whatever `r` held before; nothing
else but the PC changes. -/
theorem mov_add_double (variant : Variant) (rom : List Nat) (m : Machine) (r : Reg)
    (imm8 : Nat) (himm : imm8 < 256) (hpc : m.cpu.PC + 4 ≤ ROM_SIZE)
    (h0 : rom[m.cpu.PC]? = some (0x10 + r.index)) (h1 : rom[m.cpu.PC + 1]? = some imm8)
    (h2 : rom[m.cpu.PC + 2]? = some (0x00 + r.index)) (h3 : rom[m.cpu.PC + 3]? = some imm8) :
    variant.run rom 2 m = .running (setPC (setReg m r (2 * imm8)) (m.cpu.PC + 4)) ∧
    (setPC (setReg m r (2 * imm8)) (m.cpu.PC + 4)).cpu.get r = 2 * imm8 := by
  have hs1 := variant.both_step_mov8 r (show m.cpu.PC + 2 ≤ ROM_SIZE by omega) h0 h1
  have hs2 := @Variant.both_step_add8 variant rom (setPC (setReg m r imm8) (m.cpu.PC + 2)) r imm8
    (show m.cpu.PC + 2 + 2 ≤ ROM_SIZE from hpc) (by simpa using h2) (by simpa using h3)
  have hu : u16 ((imm8 : Int) + (imm8 : Int)) = 2 * imm8 := by
    unfold u16
    omega
  refine ⟨?_, by simp⟩
  rw [variant.both_run_two hs1 hs2]
  simp only [get_setPC, get_setReg, hu, setReg_setPC_setReg]
  rfl

/-- Witness for `mov_add_double`: `MOV B, 255; ADD B, 255` leaves `B = 510` in
the checked variant, and `MOV A, 7; ADD A, 7` leaves `A = 14` in the unchecked one. -/
theorem mov_add_double_witness :
    Checked.run (load_rom [0x11, 255, 0x01, 255]).1 2 (setB (initial 4 []) 0xBEEF)
      = .running (setPC (setB (initial 4 []) 510) 4) ∧
    Unchecked.run (load_rom [0x10, 7, 0x00, 7]).1 2 (initial 4 [])
      = .running (setPC (setA (initial 4 []) 14) 4) :=
  ⟨(mov_add_double .checked (load_rom [0x11, 255, 0x01, 255]).1
      (setB (initial 4 []) 0xBEEF) .B 255
      (by decide) (by decide) (load_rom_getElem? _ (by decide))
      (load_rom_getElem? _ (by decide)) (load_rom_getElem? _ (by decide))
      (load_rom_getElem? _ (by decide))).1,
   (mov_add_double .unchecked (load_rom [0x10, 7, 0x00, 7]).1 (initial 4 []) .A 7
      (by decide) (by decide) (load_rom_getElem? _ (by decide))
      (load_rom_getElem? _ (by decide)) (load_rom_getElem? _ (by decide))
      (load_rom_getElem? _ (by decide))).1⟩

theorem load_rom_bytes {file : List Nat} (h : ∀ b ∈ file, b < 256) :
    ∀ b ∈ (load_rom file).1, b < 256 := by
  intro b hb
  simp only [load_rom, List.mem_append] at hb
  rcases hb with hb | hb
  · exact h b (List.mem_of_mem_take hb)
  · rw [(List.mem_replicate.1 hb).2]
    decide

namespace Checked

/-! ## C11: the next program counter -/

theorem advance_running_pc {m0 m1 : Machine} {len : Nat} (hpc : m0.cpu.PC < ROM_SIZE)
    (hlen : len ≤ 3) (h : advance m0 len = .running m1) : m1.cpu.PC = m0.cpu.PC + len := by
  rw [advance_eq (by simp only [ROM_SIZE, SIZE_T_RANGE] at *; omega)] at h
  cases h
  rfl

theorem dispatch_pc_advance {rom : List Nat} {m m1 : Machine} {op w : Nat}
    (hpc : m.cpu.PC < ROM_SIZE) (hw : operand_width op = some w)
    (hj : op ≠ 0x14 ∧ op ≠ 0x22 ∧ op ≠ 0x23)
    (h : dispatch rom m op = .running m1) : m1.cpu.PC = m.cpu.PC + 1 + w := by
  have hop : op ≤ 0x31 ∨ op = 0xFF := by
    unfold operand_width at hw
    split_ifs at hw <;> omega
  rcases hop with hop | hop
  · have key : ∀ (m0 : Machine) (len : Nat), advance m0 len = .running m1 →
        m0.cpu.PC = m.cpu.PC → len = 1 + w → len ≤ 3 → m1.cpu.PC = m.cpu.PC + 1 + w := by
      intro m0 len ha h0 hl hl3
      rw [advance_running_pc (by rw [h0]; exact hpc) hl3 ha, h0, hl]
      omega
    interval_cases op <;> simp [operand_width] at hw <;> subst hw <;>
      first
        | (exfalso; omega)
        | (simp only [dispatch, CHECK_ROM, CHECK_RAM, operands, romAt, ramAt, ramSet] at h
           repeat' split at h
           all_goals first
             | exact key _ _ h rfl rfl (by decide)
             | simp at h)
  · subst hop
    simp [dispatch] at h

theorem operand_width_some {op : Nat} (h : op ≤ 0x31 ∨ op = 0xFF) :
    ∃ w, operand_width op = some w := by
  unfold operand_width
  split_ifs <;> first | exact ⟨_, rfl⟩ | (exfalso; omega)

theorem dispatch_jump_pc {rom : List Nat} {m m1 : Machine} {op : Nat}
    (hbytes : ∀ b ∈ rom, b < 256)
    (hj : op = 0x14 ∨ (op = 0x22 ∧ m.cpu.Z = true) ∨ (op = 0x23 ∧ m.cpu.Z = false))
    (h : dispatch rom m op = .running m1) :
    ∃ lo hi, rom[m.cpu.PC + 1]? = some lo ∧ rom[m.cpu.PC + 2]? = some hi ∧
      m1.cpu.PC = lo + 256 * hi := by
  have fin : ∀ lo hi, rom[m.cpu.PC + 1]? = some lo → rom[m.cpu.PC + 2]? = some hi →
      (m1.cpu.PC = imm16 lo hi ∨ m1.cpu.PC = u16 (imm16 lo hi)) →
      ∃ lo hi, rom[m.cpu.PC + 1]? = some lo ∧ rom[m.cpu.PC + 2]? = some hi ∧
        m1.cpu.PC = lo + 256 * hi := by
    intro lo hi h1 h2 hp
    have hlo := hbytes lo (List.getElem?_mem h1)
    have hhi := hbytes hi (List.getElem?_mem h2)
    refine ⟨lo, hi, h1, h2, ?_⟩
    rcases hp with hp | hp
    · rw [hp, imm16_eq hlo]
    · rw [hp, u16_imm16 hlo hhi]
  rcases hj with hj | ⟨hj, hz⟩ | ⟨hj, hz⟩
  · subst hj
    simp only [dispatch, CHECK_ROM, operands, romAt] at h
    repeat' split at h
    all_goals first
      | (simp at h; done)
      | (cases h; exact fin _ _ (by assumption) (by assumption) (.inr rfl))
  · subst hj
    simp only [dispatch, CHECK_ROM, operands, romAt, hz, ↓reduceIte] at h
    repeat' split at h
    all_goals first
      | (simp at h; done)
      | (cases h; exact fin _ _ (by assumption) (by assumption) (.inl rfl))
  · subst hj
    simp only [dispatch, CHECK_ROM, operands, romAt, hz, Bool.not_false, ↓reduceIte] at h
    repeat' split at h
    all_goals first
      | (simp at h; done)
      | (cases h; exact fin _ _ (by assumption) (by assumption) (.inl rfl))

/-- C11: in the checked variant, when an iteration at a PC below 32768 completes
and the loop goes on (a defined instruction that neither faults nor halts), the
next PC is: for JMP (`0x14`), JZ (`0x22`) with `Z` true and JNZ (`0x23`) with `Z`
false, exactly the little-endian immediate `lo + 256 * hi` of the two operand
bytes, with no advance added; for every other instruction, untaken JZ and JNZ
included, `PC + 1 + w` with `w` the operand width of the opcode (0 for
`0x08..0x0F` and `0x2C..0x31`, 1 for `0x00..0x07` and `0x10..0x13`, 2 for
`0x14..0x2B`). -/
theorem next_pc (rom : List Nat) (m m1 : Machine) (op : Nat)
    (hbytes : ∀ b ∈ rom, b < 256) (hpc : m.cpu.PC < ROM_SIZE)
    (hop : rom[m.cpu.PC]? = some op) (hstep : step rom m = .running m1) :
    ((op = 0x14 ∨ (op = 0x22 ∧ m.cpu.Z = true) ∨ (op = 0x23 ∧ m.cpu.Z = false)) →
      ∃ lo hi, rom[m.cpu.PC + 1]? = some lo ∧ rom[m.cpu.PC + 2]? = some hi ∧
        m1.cpu.PC = lo + 256 * hi) ∧
    (¬ (op = 0x14 ∨ (op = 0x22 ∧ m.cpu.Z = true) ∨ (op = 0x23 ∧ m.cpu.Z = false)) →
      ∃ w, operand_width op = some w ∧ m1.cpu.PC = m.cpu.PC + 1 + w ∧
        (w = 0 ↔ (0x08 ≤ op ∧ op ≤ 0x0F) ∨ (0x2C ≤ op ∧ op ≤ 0x31)) ∧
        (w = 1 ↔ op ≤ 0x07 ∨ (0x10 ≤ op ∧ op ≤ 0x13)) ∧
        (w = 2 ↔ (0x14 ≤ op ∧ op ≤ 0x2B))) := by
  rw [step_fetch hpc hop] at hstep
  refine ⟨fun hj => dispatch_jump_pc hbytes hj hstep, fun hj => ?_⟩
  have hknown : op ≤ 0x31 ∨ op = 0xFF := by
    by_contra hk
    rw [dispatch_unknown rom m op (by omega) (by omega)] at hstep
    cases hstep
  have hff : op ≠ 0xFF := by
    rintro rfl
    rw [dispatch_halt] at hstep
    cases hstep
  obtain ⟨w, hw⟩ := operand_width_some hknown
  have hwid : (w = 0 ↔ (0x08 ≤ op ∧ op ≤ 0x0F) ∨ (0x2C ≤ op ∧ op ≤ 0x31)) ∧
      (w = 1 ↔ op ≤ 0x07 ∨ (0x10 ≤ op ∧ op ≤ 0x13)) ∧
      (w = 2 ↔ (0x14 ≤ op ∧ op ≤ 0x2B)) := by
    unfold operand_width at hw
    split_ifs at hw <;> simp at hw <;> subst hw <;> omega
  refine ⟨w, hw, ?_, hwid⟩
  by_cases h3 : op ≠ 0x14 ∧ op ≠ 0x22 ∧ op ≠ 0x23
  · exact dispatch_pc_advance hpc hw h3 hstep
  · have hcase : (op = 0x22 ∧ m.cpu.Z = false) ∨ (op = 0x23 ∧ m.cpu.Z = true) := by
      cases hz : m.cpu.Z <;> simp [hz] at hj ⊢ <;> omega
    rcases hcase with ⟨h22, hz⟩ | ⟨h23, hz⟩
    · subst h22
      simp [operand_width] at hw
      subst hw
      simp only [dispatch, CHECK_ROM, hz] at hstep
      split at hstep
      · cases hstep
      · exact advance_running_pc hpc (by decide) hstep
    · subst h23
      simp [operand_width] at hw
      subst hw
      simp only [dispatch, CHECK_ROM, hz] at hstep
      split at hstep
      · cases hstep
      · exact advance_running_pc hpc (by decide) hstep

/-- Witness for `next_pc`: `JMP 0x1234` on the initial state continues at
`0x34 + 256 * 0x12`, and `ADD A, 0x0201` continues at `0 + 1 + 2`. -/
theorem next_pc_witness :
    (∃ lo hi, (load_rom [0x14, 0x34, 0x12]).1[(initial 3 []).cpu.PC + 1]? = some lo ∧
      (load_rom [0x14, 0x34, 0x12]).1[(initial 3 []).cpu.PC + 2]? = some hi ∧
      (setPC (initial 3 []) 0x1234).cpu.PC = lo + 256 * hi) ∧
    (∃ w, operand_width 0x15 = some w ∧
      (setPC (setA (initial 3 []) 0x0201) 3).cpu.PC = (initial 3 []).cpu.PC + 1 + w ∧
      (w = 0 ↔ (0x08 ≤ 0x15 ∧ 0x15 ≤ 0x0F) ∨ (0x2C ≤ 0x15 ∧ 0x15 ≤ 0x31)) ∧
      (w = 1 ↔ 0x15 ≤ 0x07 ∨ (0x10 ≤ 0x15 ∧ 0x15 ≤ 0x13)) ∧
      (w = 2 ↔ (0x14 ≤ 0x15 ∧ 0x15 ≤ 0x2B))) :=
  ⟨(next_pc (load_rom [0x14, 0x34, 0x12]).1 (initial 3 []) (setPC (initial 3 []) 0x1234) 0x14
      (load_rom_bytes (by decide)) (by decide) (load_rom_getElem? _ (by decide))
      (@step_jmp (load_rom [0x14, 0x34, 0x12]).1 (initial 3 []) 0x34 0x12
        (show (0 : Nat) + 3 ≤ 32768 by decide) (load_rom_getElem? _ (by decide))
        (load_rom_getElem? _ (by decide)) (load_rom_getElem? _ (by decide)))).1 (.inl rfl),
   (next_pc (load_rom [0x15, 0x01, 0x02]).1 (initial 3 [])
      (setPC (setA (initial 3 []) 0x0201) 3) 0x15
      (load_rom_bytes (by decide)) (by decide) (load_rom_getElem? _ (by decide))
      (@step_add16 (load_rom [0x15, 0x01, 0x02]).1 (initial 3 []) .A 0x01 0x02
        (show (0 : Nat) + 3 ≤ 32768 by decide) (load_rom_getElem? _ (by decide))
        (load_rom_getElem? _ (by decide)) (load_rom_getElem? _ (by decide)))).2 (by decide)⟩

end Checked

theorem get_setReg_ne (m : Machine) {r r2 : Reg} (h : r2 ≠ r) (v : Nat) :
    (setReg m r v).cpu.get r2 = m.cpu.get r2 := by
  cases r <;> cases r2 <;> first | rfl | exact absurd rfl h

namespace Checked

/-! ## C12: the register order of the opcode table -/

/-- C12: in the checked variant, for each base `b` of a register-indexed opcode
range and each register `r` with index `i` in the order A, B, C, D, the opcode
`b + i` operates on `r`: the new value of `r` is computed from the old value of
`r` and the operands alone and is written to `r` (STORE writes the low 8 bits of
`r` to the data region and writes no register), and the other three registers
keep their values. -/
theorem register_order (rom : List Nat) (m : Machine) (r : Reg) (lo hi : Nat)
    (hram : m.ram.length = RAM_SIZE) (hpc : m.cpu.PC + 3 ≤ ROM_SIZE)
    (h1 : rom[m.cpu.PC + 1]? = some lo) (h2 : rom[m.cpu.PC + 2]? = some hi) :
    (rom[m.cpu.PC]? = some (0x00 + r.index) →
      step rom m = .running (setPC (setReg m r (u16 (m.cpu.get r + lo))) (m.cpu.PC + 2))) ∧
    (rom[m.cpu.PC]? = some (0x04 + r.index) →
      step rom m = .running (setPC (setReg m r (u16 (m.cpu.get r - lo))) (m.cpu.PC + 2))) ∧
    (rom[m.cpu.PC]? = some (0x08 + r.index) →
      step rom m = .running (setPC (setReg m r (u16 (m.cpu.get r + 1))) (m.cpu.PC + 1))) ∧
    (rom[m.cpu.PC]? = some (0x0C + r.index) →
      step rom m = .running (setPC (setReg m r (u16 (m.cpu.get r - 1))) (m.cpu.PC + 1))) ∧
    (rom[m.cpu.PC]? = some (0x10 + r.index) →
      step rom m = .running (setPC (setReg m r lo) (m.cpu.PC + 2))) ∧
    (rom[m.cpu.PC]? = some (0x15 + r.index) →
      step rom m
        = .running (setPC (setReg m r (u16 (m.cpu.get r + imm16 lo hi))) (m.cpu.PC + 3))) ∧
    (rom[m.cpu.PC]? = some (0x19 + r.index) →
      step rom m
        = .running (setPC (setReg m r (u16 (m.cpu.get r - imm16 lo hi))) (m.cpu.PC + 3))) ∧
    (rom[m.cpu.PC]? = some (0x1D + r.index) →
      step rom m = .running (setPC (setReg m r (u16 (imm16 lo hi))) (m.cpu.PC + 3))) ∧
    (rom[m.cpu.PC]? = some (0x24 + r.index) →
      ∃ v, m.ram[u16 (imm16 lo hi)]? = some v ∧
        step rom m = .running (setPC (setReg m r v) (m.cpu.PC + 3))) ∧
    (rom[m.cpu.PC]? = some (0x28 + r.index) →
      step rom m = .running (setPC
        { m with ram := m.ram.set (u16 (imm16 lo hi)) (m.cpu.get r % 256) }
        (m.cpu.PC + 3))) ∧
    (∀ (r2 : Reg) (v pc : Nat), r2 ≠ r →
      (setPC (setReg m r v) pc).cpu.get r2 = m.cpu.get r2) ∧
    (∀ (r2 : Reg) (ram : List Nat) (pc : Nat),
      (setPC { m with ram := ram } pc).cpu.get r2 = m.cpu.get r2) := by
  have hlen : u16 (imm16 lo hi) < m.ram.length := by rw [hram]; exact u16_lt _
  refine ⟨fun h0 => step_add8 r (by omega) h0 h1, fun h0 => step_sub8 r (by omega) h0 h1,
    fun h0 => step_inc r (by omega) h0, fun h0 => step_dec r (by omega) h0,
    fun h0 => step_mov8 r (by omega) h0 h1, fun h0 => step_add16 r hpc h0 h1 h2,
    fun h0 => step_sub16 r hpc h0 h1 h2, fun h0 => step_mov16 r hpc h0 h1 h2,
    fun h0 => ⟨m.ram[u16 (imm16 lo hi)], List.getElem?_eq_getElem hlen,
      step_load r hpc h0 h1 h2 (List.getElem?_eq_getElem hlen)⟩,
    fun h0 => step_store r hpc h0 h1 h2 hlen,
    fun r2 v pc hne => by rw [get_setPC, get_setReg_ne m hne],
    fun r2 ram pc => by cases r2 <;> rfl⟩

/-- Witness for `register_order`: opcode `0x02` is `ADD C` and opcode `0x1F` is
`MOV C, imm16`. -/
theorem register_order_witness :
    step (load_rom [0x02, 0x07, 0x00]).1 (setC (initial 3 []) 5)
      = .running (setPC (setC (initial 3 []) 12) 2) ∧
    step (load_rom [0x1F, 0x07, 0x01]).1 (setC (initial 3 []) 5)
      = .running (setPC (setC (initial 3 []) 263) 3) :=
  ⟨(register_order (load_rom [0x02, 0x07, 0x00]).1 (setC (initial 3 []) 5) .C 0x07 0x00
      (by simp [initial]) (by decide) (load_rom_getElem? _ (by decide))
      (load_rom_getElem? _ (by decide))).1 (load_rom_getElem? _ (by decide)),
   (register_order (load_rom [0x1F, 0x07, 0x01]).1 (setC (initial 3 []) 5) .C 0x07 0x01
      (by simp [initial]) (by decide) (load_rom_getElem? _ (by decide))
      (load_rom_getElem? _ (by decide))).2.2.2.2.2.2.2.1 (load_rom_getElem? _ (by decide))⟩

end Checked

@[simp] theorem setA_Z (m : Machine) (v : Nat) : (setA m v).cpu.Z = m.cpu.Z := rfl
@[simp] theorem setB_Z (m : Machine) (v : Nat) : (setB m v).cpu.Z = m.cpu.Z := rfl
@[simp] theorem setC_Z (m : Machine) (v : Nat) : (setC m v).cpu.Z = m.cpu.Z := rfl
@[simp] theorem setD_Z (m : Machine) (v : Nat) : (setD m v).cpu.Z = m.cpu.Z := rfl
@[simp] theorem setPC_Z (m : Machine) (v : Nat) : (setPC m v).cpu.Z = m.cpu.Z := rfl
@[simp] theorem putchar_cpu (m : Machine) (c : Nat) : (putchar m c).cpu = m.cpu := rfl
@[simp] theorem out_bits_cpu (m : Machine) (a : Nat) : (out_bits m a).cpu = m.cpu := by
  simp [out_bits, List.foldl]

namespace Checked

/-! ## C13: the zero flag -/

theorem dispatch_keeps_Z (rom : List Nat) (m : Machine) {op : Nat} (hcmp : op ≠ 0x21) :
    ∀ m1 ∈ (dispatch rom m op).machine?, m1.cpu.Z = m.cpu.Z := by
  by_cases hop : op ≤ 0x31
  · interval_cases op <;>
      first
        | exact absurd rfl hcmp
        | (simp only [dispatch, CHECK_ROM, CHECK_RAM, operands, romAt, ramAt, ramSet, advance]
           repeat' split
           all_goals simp [Outcome.machine?])
  · by_cases hff : op = 0xFF
    · subst hff
      simp [dispatch, Outcome.machine?]
    · rw [dispatch_unknown rom m op (by omega) hff]
      simp [Outcome.machine?]

theorem dispatch_ignores_Z (rom : List Nat) (m : Machine) {op : Nat}
    (hjz : op ≠ 0x22) (hjnz : op ≠ 0x23) (z : Bool) :
    (dispatch rom (setZ m z) op).map (fun m1 => setZ m1 false)
      = (dispatch rom m op).map (fun m1 => setZ m1 false) := by
  have hpc : (setZ m z).cpu.PC = m.cpu.PC := rfl
  have hram : (setZ m z).ram = m.ram := rfl
  have hin : (setZ m z).stdin = m.stdin := rfl
  have hout : (setZ m z).stdout = m.stdout := rfl
  have herr : (setZ m z).stderr = m.stderr := rfl
  have hA : (setZ m z).cpu.A = m.cpu.A := rfl
  have hB : (setZ m z).cpu.B = m.cpu.B := rfl
  have hC : (setZ m z).cpu.C = m.cpu.C := rfl
  have hD : (setZ m z).cpu.D = m.cpu.D := rfl
  by_cases hop : op ≤ 0x31
  · interval_cases op <;>
      first
        | exact absurd rfl hjz
        | exact absurd rfl hjnz
        | (simp only [dispatch, CHECK_ROM, CHECK_RAM, operands, romAt, ramAt, ramSet, advance,
             hpc, hram, hin, hout, herr, hA, hB, hC, hD]
           repeat' split
           all_goals simp [Outcome.map, setZ, setA, setB, setC, setD, setPC, putchar, out_bits])
  · by_cases hff : op = 0xFF
    · subst hff
      simp [dispatch, Outcome.map, setZ]
    · rw [dispatch_unknown rom m op (by omega) hff,
        dispatch_unknown rom (setZ m z) op (by omega) hff]
      simp [Outcome.map, setZ]

/-- C13: in the checked variant, for every state at a PC below 32768 and every
opcode other than `0x21` (JMP, JZ, JNZ and the I/O opcodes included), `Z` after
the iteration equals `Z` before it, whatever the outcome; and for every opcode
other than `0x22` and `0x23`, two states that differ only in `Z` step to outcomes
that differ at most in `Z`. -/
theorem zero_flag_frame (rom : List Nat) (m : Machine) (op : Nat)
    (hpc : m.cpu.PC < ROM_SIZE) (hop : rom[m.cpu.PC]? = some op) :
    (op ≠ 0x21 → ∀ m1 ∈ (step rom m).machine?, m1.cpu.Z = m.cpu.Z) ∧
    (op ≠ 0x22 → op ≠ 0x23 → ∀ z : Bool,
      (step rom (setZ m z)).map (fun m1 => setZ m1 false)
        = (step rom m).map (fun m1 => setZ m1 false)) := by
  constructor
  · intro hcmp
    rw [step_fetch hpc hop]
    exact dispatch_keeps_Z rom m hcmp
  · intro hjz hjnz z
    rw [step_fetch hpc hop, @step_fetch rom (setZ m z) op hpc hop]
    exact dispatch_ignores_Z rom m hjz hjnz z

/-- Witness for `zero_flag_frame`: `JMP 5` with `Z` true leaves `Z` true, and
`ADD A, 5` started with `Z` true or `Z` false gives the same state up to `Z`. -/
theorem zero_flag_frame_witness :
    (setPC (setZ (initial 3 []) true) 5).cpu.Z = (setZ (initial 3 []) true).cpu.Z ∧
    (step (load_rom [0x00, 0x05]).1 (setZ (initial 2 []) true)).map (fun m1 => setZ m1 false)
      = (step (load_rom [0x00, 0x05]).1 (initial 2 [])).map (fun m1 => setZ m1 false) :=
  ⟨(zero_flag_frame (load_rom [0x14, 0x05, 0x00]).1 (setZ (initial 3 []) true) 0x14
      (by decide) (load_rom_getElem? _ (by decide))).1 (by decide)
      (setPC (setZ (initial 3 []) true) 5)
      (by
        rw [@step_jmp (load_rom [0x14, 0x05, 0x00]).1 (setZ (initial 3 []) true) 0x05 0x00
          (show (0 : Nat) + 3 ≤ 32768 by decide) (load_rom_getElem? _ (by decide))
          (load_rom_getElem? _ (by decide)) (load_rom_getElem? _ (by decide))]
        rfl),
   (zero_flag_frame (load_rom [0x00, 0x05]).1 (initial 2 []) 0x00
      (by decide) (load_rom_getElem? _ (by decide))).2 (by decide) (by decide) true⟩


/-! ## C14: running off the end of the code region -/

theorem step_exhausted {rom : List Nat} {m : Machine} (h : ROM_SIZE ≤ m.cpu.PC) :
    step rom m = .exhausted m := by
  simp [step, Nat.not_lt.2 h]

theorem run_succ_exhausted {rom : List Nat} {m m1 : Machine} (fuel : Nat)
    (h : step rom m = .exhausted m1) : run rom (fuel + 1) m = .exhausted m1 := by
  simp only [run, h]

/-- C14: in the checked variant, an iteration that starts with the PC at or past
32768 ends the run as Exhausted with the state unchanged (so nothing is printed)
and the exit status of success.  A JMP, a JZ with `Z` true or a JNZ with `Z`
false whose target `t = lo + 256 * hi` is at least 32768 (and at most 65535)
completes without a fault, changing only the PC, and the run ends Exhausted on
the next fetch, in the state before the jump with `PC = t`. -/
theorem exhausted_past_rom (rom : List Nat) (m : Machine) (lo hi fuel : Nat) :
    (ROM_SIZE ≤ m.cpu.PC →
      step rom m = .exhausted m ∧ run rom (fuel + 1) m = .exhausted m ∧
      (step rom m).exitStatus = some EXIT_SUCCESS) ∧
    (lo < 256 → hi < 256 → ROM_SIZE ≤ lo + 256 * hi → m.cpu.PC + 3 ≤ ROM_SIZE →
      rom[m.cpu.PC + 1]? = some lo → rom[m.cpu.PC + 2]? = some hi →
      (rom[m.cpu.PC]? = some 0x14 ∨ (rom[m.cpu.PC]? = some 0x22 ∧ m.cpu.Z = true) ∨
        (rom[m.cpu.PC]? = some 0x23 ∧ m.cpu.Z = false)) →
      lo + 256 * hi ≤ 65535 ∧
      step rom m = .running (setPC m (lo + 256 * hi)) ∧
      run rom (fuel + 2) m = .exhausted (setPC m (lo + 256 * hi)) ∧
      (run rom (fuel + 2) m).exitStatus = some EXIT_SUCCESS) := by
  constructor
  · intro h
    have hs := @step_exhausted rom m h
    exact ⟨hs, run_succ_exhausted fuel hs, by rw [hs]; rfl⟩
  · intro hlo hhi ht hpc h1 h2 hop
    have hs : step rom m = .running (setPC m (lo + 256 * hi)) := by
      rcases hop with hop | ⟨hop, hz⟩ | ⟨hop, hz⟩
      · rw [step_jmp hpc hop h1 h2, u16_imm16 hlo hhi]
      · rw [step_jz hpc hop h1 h2, if_pos hz, imm16_eq hlo]
      · rw [step_jnz hpc hop h1 h2, if_pos hz, imm16_eq hlo]
    have hr : run rom (fuel + 2) m = .exhausted (setPC m (lo + 256 * hi)) := by
      rw [run_succ_running (fuel + 1) hs]
      exact run_succ_exhausted fuel (step_exhausted ht)
    exact ⟨by omega, hs, hr, by rw [hr]; rfl⟩

/-- Witness for `exhausted_past_rom`: `JMP 0x8000` from the initial state ends the
run Exhausted at PC 32768 in the second iteration. -/
theorem exhausted_past_rom_witness :
    step (load_rom [0x14, 0x00, 0x80]).1 (initial 3 [])
      = .running (setPC (initial 3 []) 32768) ∧
    run (load_rom [0x14, 0x00, 0x80]).1 2 (initial 3 [])
      = .exhausted (setPC (initial 3 []) 32768) ∧
    step (load_rom []).1 (setPC (initial 0 []) 40000)
      = .exhausted (setPC (initial 0 []) 40000) :=
  ⟨((exhausted_past_rom (load_rom [0x14, 0x00, 0x80]).1 (initial 3 []) 0x00 0x80 0).2
      (by decide) (by decide) (by decide) (by decide) (load_rom_getElem? _ (by decide))
      (load_rom_getElem? _ (by decide)) (.inl (load_rom_getElem? _ (by decide)))).2.1,
   ((exhausted_past_rom (load_rom [0x14, 0x00, 0x80]).1 (initial 3 []) 0x00 0x80 0).2
      (by decide) (by decide) (by decide) (by decide) (load_rom_getElem? _ (by decide))
      (load_rom_getElem? _ (by decide)) (.inl (load_rom_getElem? _ (by decide)))).2.2.1,
   ((exhausted_past_rom (load_rom []).1 (setPC (initial 0 []) 40000) 0 0 0).1
      (by decide)).1⟩


/-! ## C15: the image `JMP 0` -/

theorem run_fixed {rom : List Nat} {m : Machine} (h : step rom m = .running m) (fuel : Nat) :
    run rom fuel m = .running m := by
  induction fuel with
  | zero => rfl
  | succ n ih => rw [run_succ_running n h, ih]

/-- C15: for the image `[0x14, 0x00, 0x00]` (`JMP 0`), one iteration from the
initial state yields the initial state again, so for every number of iterations
`main` is still running in the initial state: PC 0, all registers zero, `Z` false,
data region all zero, nothing printed after the line of `load_rom`; no fault,
halt or exhaustion occurs. -/
theorem jmp_zero_loops (stdin : List Nat) (fuel : Nat) :
    step (load_rom [0x14, 0x00, 0x00]).1 (initial 3 stdin) = .running (initial 3 stdin) ∧
    main fuel [0x14, 0x00, 0x00] stdin = .running (initial 3 stdin) ∧
    (main fuel [0x14, 0x00, 0x00] stdin).exitStatus = none ∧
    (initial 3 stdin).cpu = { A := 0, B := 0, C := 0, D := 0, PC := 0, Z := false } ∧
    (initial 3 stdin).ram = List.replicate RAM_SIZE 0 := by
  have h0 : u16 (imm16 0x00 0x00) = 0 := by decide
  have hs : step (load_rom [0x14, 0x00, 0x00]).1 (initial 3 stdin)
      = .running (initial 3 stdin) := by
    rw [@step_jmp (load_rom [0x14, 0x00, 0x00]).1 (initial 3 stdin) 0x00 0x00
      (show (0 : Nat) + 3 ≤ 32768 by decide)
      (load_rom_getElem? _ (show (0 : Nat) < 32768 by decide))
      (load_rom_getElem? _ (show (0 : Nat) + 1 < 32768 by decide))
      (load_rom_getElem? _ (show (0 : Nat) + 2 < 32768 by decide)), h0]
    rfl
  have h3 : (load_rom [0x14, 0x00, 0x00]).2 = 3 := Nat.min_eq_left (show 3 ≤ 32768 by decide)
  have hm : main fuel [0x14, 0x00, 0x00] stdin = .running (initial 3 stdin) := by
    rw [main_eq _ _ _ h3]
    exact run_fixed hs fuel
  exact ⟨hs, hm, by rw [hm]; rfl, rfl, rfl⟩


/-! ## C16: where the diagnostics go -/

/-- C16, evaluated on the code: for the image `[0x7E]` the unknown-opcode
diagnostic is appended to standard output and nothing is written to the error
stream (the exit status is the failure status), whereas a truncated instruction
(an all-`0x00` image entered at PC 32767) appends its diagnostic to the error
stream and leaves standard output unchanged. -/
theorem unknown_opcode_goes_to_stdout :
    (main 1 [0x7E] [] = .faulted (.unknownOpcode 0x7E 0)
        { initial 1 [] with
          stdout := [.loaded 1, .diagnostic (.unknownOpcode 0x7E 0)], stderr := [] } ∧
      (main 1 [0x7E] []).exitStatus = some EXIT_FAILURE) ∧
    (step (List.replicate ROM_SIZE 0x00) (setPC (initial 0 []) 32767)
        = .faulted (.truncatedInstruction 32767)
          { setPC (initial 0 []) 32767 with
            stdout := [.loaded 0], stderr := [.diagnostic (.truncatedInstruction 32767)] } ∧
      (step (List.replicate ROM_SIZE 0x00) (setPC (initial 0 []) 32767)).exitStatus
        = some EXIT_FAILURE) := by
  have h1 : main 1 [0x7E] [] = .faulted (.unknownOpcode 0x7E 0)
      { initial 1 [] with
        stdout := [.loaded 1, .diagnostic (.unknownOpcode 0x7E 0)], stderr := [] } := by
    rw [main_eq 1 [0x7E] []
        (show (load_rom [0x7E]).2 = 1 from Nat.min_eq_left (show 1 ≤ 32768 by decide)),
      run_one,
      @step_fetch (load_rom [0x7E]).1 (initial 1 []) 0x7E (by decide)
        (load_rom_getElem? _ (by decide)),
      dispatch_unknown _ _ 0x7E (by decide) (by decide)]
    rfl
  have h2 : step (List.replicate ROM_SIZE 0x00) (setPC (initial 0 []) 32767)
      = .faulted (.truncatedInstruction 32767)
        { setPC (initial 0 []) 32767 with
          stdout := [.loaded 0], stderr := [.diagnostic (.truncatedInstruction 32767)] } := by
    rw [@step_fetch (List.replicate ROM_SIZE 0x00) (setPC (initial 0 []) 32767) 0x00
        (by decide) (replicate_rom_at _ (by decide)),
      (@truncated_dispatch (List.replicate ROM_SIZE 0x00) (setPC (initial 0 []) 32767) 0x00 1
        (by simp) (by simp [initial]) (by decide) (by decide) (by decide)).1 (by decide)]
    rfl
  exact ⟨⟨h1, by rw [h1]; rfl⟩, ⟨h2, by rw [h2]; rfl⟩⟩

end Checked

/-! ## C17: decimal input -/

theorem decimal_from_modEq (k a b : Nat) (ds : List Nat) (h : a % k = b % k) :
    decimal_from a ds % k = decimal_from b ds % k := by
  induction ds generalizing a b with
  | nil => exact h
  | cons d t ih =>
    show decimal_from (a * 10 + (d - 48)) t % k = decimal_from (b * 10 + (d - 48)) t % k
    exact ih _ _ (Nat.ModEq.add_right _ (Nat.ModEq.mul_right 10 h))

theorem in_dec_loop_digits (v : Nat) (ds rest : List Nat) (hv : v < INT_RANGE)
    (hds : ∀ c ∈ ds, is_digit c) (hrest : ∀ c ∈ rest.head?, ¬ is_digit c) :
    in_dec_loop v (ds ++ rest) = (decimal_from v ds % INT_RANGE, rest.tail) := by
  induction ds generalizing v with
  | nil =>
    rw [List.nil_append]
    have hv2 : decimal_from v [] % INT_RANGE = v := Nat.mod_eq_of_lt hv
    rw [hv2]
    cases rest with
    | nil => rfl
    | cons c r =>
      have hc : ¬ (48 ≤ c ∧ c ≤ 57) := hrest c (by simp)
      simp [in_dec_loop, hc]
  | cons d ds ih =>
    have hd : 48 ≤ d ∧ d ≤ 57 := hds d (by simp)
    have hds2 : ∀ c ∈ ds, is_digit c := fun c hc => hds c (by simp [hc])
    have hstep : decimal_from v (d :: ds) = decimal_from (v * 10 + (d - 48)) ds := rfl
    have hlt : (v * 10 + (d - 48)) % INT_RANGE < INT_RANGE := Nat.mod_lt _ (by decide)
    show in_dec_loop v (d :: (ds ++ rest)) = _
    simp only [in_dec_loop, hd, and_self, if_true]
    rw [ih _ hlt hds2, hstep,
      decimal_from_modEq INT_RANGE _ (v * 10 + (d - 48)) ds (Nat.mod_mod _ _)]

theorem mod_range_mod_256 (x : Nat) : x % INT_RANGE % 256 = x % 256 :=
  Nat.mod_mod_of_dvd x (by decide)

theorem Variant.both_step_in_dec (variant : Variant) {rom : List Nat} {m : Machine}
    (hpc : m.cpu.PC < ROM_SIZE) (hop : rom[m.cpu.PC]? = some 0x30) :
    variant.step rom m =
      .running (setPC (setA { m with stdin := (in_dec_loop 0 m.stdin).2 }
        ((in_dec_loop 0 m.stdin).1 % 256)) (m.cpu.PC + 1)) := by
  cases variant
  · show Checked.step rom m = _
    rw [Checked.step_fetch hpc hop]
    simp only [Checked.dispatch, and_255]
    exact Checked.advance_at _ (rfl : _ = m.cpu.PC) (by omega)
  · show Unchecked.step rom m = _
    rw [Unchecked.step_fetch_unchecked hpc hop]
    simp only [Unchecked.dispatch, and_255]
    exact Unchecked.advance_at_unchecked _ (rfl : _ = m.cpu.PC) (by omega)

/-- C17: in both variants, for every input stream that begins with a run `ds` of
ASCII decimal digits, of any length (empty included), followed by a non-digit
byte or the end of input, IN_DEC (`0x30`) sets `A` to the decimal value of `ds`
modulo 256, a value below 256 (0 for the empty run), consumes the digits and the
byte that ends them, leaves `B`, `C`, `D`, `Z`, the data region and the output
unchanged and advances the PC by 1. -/
theorem in_dec_value (variant : Variant) (rom : List Nat) (m : Machine)
    (ds rest : List Nat) (hpc : m.cpu.PC < ROM_SIZE) (hop : rom[m.cpu.PC]? = some 0x30)
    (hds : ∀ c ∈ ds, is_digit c) (hrest : ∀ c ∈ rest.head?, ¬ is_digit c)
    (hin : m.stdin = ds ++ rest) :
    variant.step rom m = .running
      { m with
        cpu := { m.cpu with A := decimal_value ds % 256, PC := m.cpu.PC + 1 },
        stdin := rest.tail } ∧
    variant.step rom m = .running
      (setPC (setA { m with stdin := rest.tail } (decimal_value ds % 256))
        (m.cpu.PC + 1)) ∧
    decimal_value ds % 256 < 256 ∧
    decimal_value [] = 0 := by
  have hl := in_dec_loop_digits 0 ds rest (by decide) hds hrest
  rw [← hin] at hl
  have hs := variant.both_step_in_dec hpc hop
  rw [hl] at hs
  simp only [mod_range_mod_256] at hs
  exact ⟨hs, hs, Nat.mod_lt _ (by decide), rfl⟩

/-- Witness for `in_dec_value`: on the input `300;A` the checked variant sets
`A = 300 mod 256 = 44` and leaves the `A` of the input unread; on the ten digits
`2147483648` followed by the end of input, whose value is past the largest `int`,
the unchecked variant sets `A = 2147483648 mod 256 = 0`; on twelve digits `9` it
sets `A = 255`. -/
theorem in_dec_value_witness :
    Checked.step (load_rom [0x30]).1 (initial 1 [51, 48, 48, 59, 65])
      = .running (setPC (setA { initial 1 [51, 48, 48, 59, 65] with stdin := [65] } 44) 1) ∧
    Unchecked.step (load_rom [0x30]).1
        (setA (initial 1 [50, 49, 52, 55, 52, 56, 51, 54, 52, 56]) 7)
      = .running (setPC (setA (initial 1 []) 0) 1) ∧
    Checked.step (load_rom [0x30]).1
        (initial 1 [57, 57, 57, 57, 57, 57, 57, 57, 57, 57, 57, 57])
      = .running (setPC (setA (initial 1 []) 255) 1) :=
  ⟨(in_dec_value .checked (load_rom [0x30]).1 (initial 1 [51, 48, 48, 59, 65])
      [51, 48, 48] [59, 65] (by decide) (load_rom_getElem? _ (by decide)) (by decide)
      (by decide) rfl).2.1,
   (in_dec_value .unchecked (load_rom [0x30]).1
      (setA (initial 1 [50, 49, 52, 55, 52, 56, 51, 54, 52, 56]) 7)
      [50, 49, 52, 55, 52, 56, 51, 54, 52, 56] [] (by decide)
      (load_rom_getElem? _ (by decide)) (by decide) (by decide) rfl).2.1,
   (in_dec_value .checked (load_rom [0x30]).1
      (initial 1 [57, 57, 57, 57, 57, 57, 57, 57, 57, 57, 57, 57])
      [57, 57, 57, 57, 57, 57, 57, 57, 57, 57, 57, 57] [] (by decide)
      (load_rom_getElem? _ (by decide)) (by decide) (by decide) rfl).2.1⟩

namespace Unchecked

/-! ## C18: the zero flag of the unchecked variant -/

theorem dispatch_Z_sticky (rom : List Nat) (m : Machine) (op : Nat) (hz : m.cpu.Z = true) :
    ∀ m1 ∈ (dispatch rom m op).machine?, m1.cpu.Z = true := by
  by_cases hop : op ≤ 0x31
  · interval_cases op <;>
      simp only [dispatch, operands, romAt, ramAt, ramSet, advance] <;>
      (repeat' split) <;> simp [Outcome.machine?, hz, setZ]
  · by_cases hff : op = 0xFF
    · subst hff
      simp [dispatch, Outcome.machine?, hz]
    · unfold dispatch
      simp (disch := omega) only []
      simp [Outcome.machine?, hz]

theorem step_Z_sticky (rom : List Nat) (m : Machine) (hz : m.cpu.Z = true) :
    ∀ m1 ∈ (step rom m).machine?, m1.cpu.Z = true := by
  unfold step romAt
  split
  · simp [Outcome.machine?, hz]
  · split
    · exact dispatch_Z_sticky rom m _ hz
    · simp [Outcome.machine?]

theorem run_Z_sticky (rom : List Nat) (fuel : Nat) (m : Machine) (hz : m.cpu.Z = true) :
    ∀ m1 ∈ (run rom fuel m).machine?, m1.cpu.Z = true := by
  induction fuel generalizing m with
  | zero => simp [run, Outcome.machine?, hz]
  | succ n ih =>
    have hs := step_Z_sticky rom m hz
    simp only [run]
    cases h : step rom m with
    | running m1 =>
      rw [h] at hs
      exact ih m1 (hs m1 rfl)
    | halted m1 => rw [h] at hs; exact hs
    | faulted f m1 => rw [h] at hs; exact hs
    | exhausted m1 => rw [h] at hs; exact hs
    | undefined u => simp [Outcome.machine?]

theorem step_cmp_unchecked {rom : List Nat} {m : Machine} {lo hi : Nat}
    (hpc : m.cpu.PC + 3 ≤ ROM_SIZE) (hop : rom[m.cpu.PC]? = some 0x21)
    (h1 : rom[m.cpu.PC + 1]? = some lo) (h2 : rom[m.cpu.PC + 2]? = some hi) :
    step rom m = .running
      (setPC (setZ m (m.cpu.Z || decide (m.cpu.A = imm16 lo hi))) (m.cpu.PC + 3)) := by
  rw [step_fetch_unchecked (by omega) hop]
  simp only [dispatch, operands, Checked.romAt_some _ h1, Checked.romAt_some _ h2]
  by_cases h : m.cpu.A = imm16 lo hi
  · rw [if_pos h, decide_eq_true h, Bool.or_true]
    exact advance_at_unchecked _ rfl hpc
  · rw [if_neg h, decide_eq_false h, Bool.or_false]
    exact advance_at_unchecked _ rfl hpc

/-- C18: in the unchecked variant `CMP A, imm16` (`0x21`) leaves
`Z = (Z before or A == imm16)`, changing nothing else but the PC, and no
iteration of any opcode (JMP, JZ and JNZ included) turns a true `Z` into a false
one: once `Z` is true it is true in the state of every later outcome of the run. -/
theorem zero_flag_sticky (rom : List Nat) (m : Machine) (lo hi fuel : Nat) :
    (m.cpu.PC + 3 ≤ ROM_SIZE → rom[m.cpu.PC]? = some 0x21 →
      rom[m.cpu.PC + 1]? = some lo → rom[m.cpu.PC + 2]? = some hi →
      step rom m = .running
        (setPC (setZ m (m.cpu.Z || decide (m.cpu.A = imm16 lo hi))) (m.cpu.PC + 3))) ∧
    (m.cpu.Z = true → ∀ m1 ∈ (step rom m).machine?, m1.cpu.Z = true) ∧
    (m.cpu.Z = true → ∀ m1 ∈ (run rom fuel m).machine?, m1.cpu.Z = true) :=
  ⟨fun hpc hop h1 h2 => step_cmp_unchecked hpc hop h1 h2, step_Z_sticky rom m,
    run_Z_sticky rom fuel m⟩

/-- Witness for `zero_flag_sticky`: with `Z` true and `A = 5`, the unchecked
`CMP A, 7` continues with `Z` still true. -/
theorem zero_flag_sticky_witness :
    step (load_rom [0x21, 0x07, 0x00]).1 (setZ (setA (initial 3 []) 5) true)
      = .running (setPC (setZ (setA (initial 3 []) 5) true) 3) ∧
    (setPC (setZ (setA (initial 3 []) 5) true) 3).cpu.Z = true :=
  ⟨(zero_flag_sticky (load_rom [0x21, 0x07, 0x00]).1 (setZ (setA (initial 3 []) 5) true)
      0x07 0x00 1).1 (by decide) (load_rom_getElem? _ (by decide))
      (load_rom_getElem? _ (by decide)) (load_rom_getElem? _ (by decide)),
   (zero_flag_sticky (load_rom [0x21, 0x07, 0x00]).1 (setZ (setA (initial 3 []) 5) true)
      0x07 0x00 1).2.1 rfl (setPC (setZ (setA (initial 3 []) 5) true) 3)
      (by
        rw [@step_cmp_unchecked (load_rom [0x21, 0x07, 0x00]).1
          (setZ (setA (initial 3 []) 5) true) 0x07 0x00 (by decide)
          (load_rom_getElem? _ (by decide)) (load_rom_getElem? _ (by decide))
          (load_rom_getElem? _ (by decide))]
        rfl)⟩

end Unchecked

/-! ## C19: the two variants side by side -/

theorem advance_agree {m0 : Machine} {len : Nat} (hpc : m0.cpu.PC < ROM_SIZE)
    (hlen : len ≤ 3) : Unchecked.advance m0 len = Checked.advance m0 len := by
  have h1 : m0.cpu.PC + len ≤ INT_MAX := by
    simp only [ROM_SIZE, INT_MAX] at *
    omega
  have h2 : (m0.cpu.PC + len) % SIZE_T_RANGE = m0.cpu.PC + len := by
    simp only [ROM_SIZE, SIZE_T_RANGE] at *
    omega
  simp [Unchecked.advance, Checked.advance, h1, h2]

theorem CHECK_ROM_not_truncated {m : Machine} {n : Nat} {k : Outcome}
    (h : ∀ p m1, Checked.CHECK_ROM m n k ≠ .faulted (.truncatedInstruction p) m1) :
    Checked.CHECK_ROM m n k = k := by
  unfold Checked.CHECK_ROM at h ⊢
  split
  · rename_i hc
    exact absurd (by rw [if_pos hc]) (h _ _)
  · rfl

theorem dispatch_agree {rom : List Nat} {m : Machine} {op : Nat}
    (hpc : m.cpu.PC < ROM_SIZE) (hne : op ≠ 0x21)
    (hnt : ∀ p m1, Checked.dispatch rom m op ≠ .faulted (.truncatedInstruction p) m1) :
    Unchecked.dispatch rom m op = Checked.dispatch rom m op := by
  have hadv : ∀ (m0 : Machine) (len : Nat), m0.cpu.PC = m.cpu.PC → len ≤ 3 →
      Unchecked.advance m0 len = Checked.advance m0 len :=
    fun m0 len h hl => advance_agree (by rw [h]; exact hpc) hl
  by_cases hop : op ≤ 0x31
  · interval_cases op <;>
      first
        | exact absurd rfl hne
        | (simp only [Checked.dispatch] at hnt
           simp only [Checked.dispatch, Unchecked.dispatch]
           try rw [CHECK_ROM_not_truncated hnt]
           try simp only [Unchecked.operands, Checked.operands, romAt, ramAt, ramSet,
             Checked.CHECK_RAM_u16]
           repeat' split
           all_goals first
             | rfl
             | exact hadv _ _ rfl (by decide))
  · by_cases hff : op = 0xFF
    · subst hff
      simp [Checked.dispatch, Unchecked.dispatch]
    · rw [Checked.dispatch_unknown rom m op (by omega) hff]
      unfold Unchecked.dispatch
      simp (disch := omega) only []

theorem setZ_self (m : Machine) {z : Bool} (h : m.cpu.Z = z) : setZ m z = m := by
  subst h
  rfl

theorem dispatch_cmp_agree {rom : List Nat} {m : Machine} (hpc : m.cpu.PC < ROM_SIZE)
    (hnt : ∀ p m1, Checked.dispatch rom m 0x21 ≠ .faulted (.truncatedInstruction p) m1) :
    ((Unchecked.dispatch rom m 0x21).map (fun m1 => setZ m1 false)
      = (Checked.dispatch rom m 0x21).map (fun m1 => setZ m1 false)) ∧
    ((∀ lo hi, rom[m.cpu.PC + 1]? = some lo → rom[m.cpu.PC + 2]? = some hi →
        m.cpu.Z = true → m.cpu.A = imm16 lo hi) →
      Unchecked.dispatch rom m 0x21 = Checked.dispatch rom m 0x21) ∧
    (∀ lo hi, rom[m.cpu.PC + 1]? = some lo → rom[m.cpu.PC + 2]? = some hi →
        m.cpu.Z = true → m.cpu.A ≠ imm16 lo hi →
      Unchecked.dispatch rom m 0x21 = .running (setPC m (m.cpu.PC + 3)) ∧
      Checked.dispatch rom m 0x21 = .running (setPC (setZ m false) (m.cpu.PC + 3))) := by
  have hc : ∀ m0 : Machine, m0.cpu.PC = m.cpu.PC →
      Checked.advance m0 3 = .running (setPC m0 (m.cpu.PC + 3)) := fun m0 h => by
    rw [← h]
    exact Checked.advance_eq (by rw [h]; simp only [ROM_SIZE, SIZE_T_RANGE] at *; omega)
  have hu : ∀ m0 : Machine, m0.cpu.PC = m.cpu.PC →
      Unchecked.advance m0 3 = .running (setPC m0 (m.cpu.PC + 3)) := fun m0 h => by
    rw [advance_agree (by rw [h]; exact hpc) (by decide)]
    exact hc m0 h
  simp only [Checked.dispatch] at hnt
  simp only [Checked.dispatch, Unchecked.dispatch]
  rw [CHECK_ROM_not_truncated hnt]
  simp only [Unchecked.operands, Checked.operands, romAt]
  cases h1 : rom[m.cpu.PC + 1]? with
  | none => exact ⟨rfl, fun _ => rfl, fun lo hi e => by cases e⟩
  | some lo =>
    cases h2 : rom[m.cpu.PC + 2]? with
    | none => exact ⟨rfl, fun _ => rfl, fun lo hi _ e => by cases e⟩
    | some hi =>
      by_cases ha : m.cpu.A = imm16 lo hi
      · simp only [if_pos ha]
        rw [hc (setZ m true) rfl, hu (setZ m true) rfl]
        refine ⟨rfl, fun _ => rfl, fun lo2 hi2 e1 e2 hz hne => ?_⟩
        cases e1
        cases e2
        exact absurd ha hne
      · simp only [if_neg ha]
        rw [hc (setZ m false) rfl, hu m rfl]
        refine ⟨rfl, fun h => ?_, fun _ _ _ _ _ _ => ⟨rfl, rfl⟩⟩
        cases hz : m.cpu.Z with
        | true => exact absurd (h lo hi rfl rfl hz) ha
        | false => rw [setZ_self m hz]

/-- C19: for every code region and every state, if the iteration of the checked
variant does not end in the truncated-instruction fault, then the iterations of
the unchecked and the checked variant have the same outcome with the same
registers, PC, data region, remaining input and console output, and differ at
most in `Z`; they are equal unless the opcode is CMP (`0x21`) with `Z` already
true and `A` different from the immediate, and in that case (at a PC below 32768)
the unchecked variant continues with `Z` true where the checked one continues
with `Z` false. -/
theorem variants_agree (rom : List Nat) (m : Machine)
    (hnt : ∀ p m1, Checked.step rom m ≠ .faulted (.truncatedInstruction p) m1) :
    ((Unchecked.step rom m).map (fun m1 => setZ m1 false)
      = (Checked.step rom m).map (fun m1 => setZ m1 false)) ∧
    (¬ cmp_mismatch_with_Z rom m → Unchecked.step rom m = Checked.step rom m) ∧
    (cmp_mismatch_with_Z rom m → m.cpu.PC < ROM_SIZE →
      Unchecked.step rom m = .running (setPC m (m.cpu.PC + 3)) ∧
      Checked.step rom m = .running (setPC (setZ m false) (m.cpu.PC + 3))) := by
  by_cases hpc : m.cpu.PC < ROM_SIZE
  · cases hop : rom[m.cpu.PC]? with
    | none =>
      have h1 : Checked.step rom m = .undefined .outOfRange := by
        simp [Checked.step, hpc, romAt, hop]
      have h2 : Unchecked.step rom m = .undefined .outOfRange := by
        simp [Unchecked.step, hpc, romAt, hop]
      rw [h1, h2]
      refine ⟨rfl, fun _ => rfl, fun hx _ => ?_⟩
      rw [hx.1] at hop
      cases hop
    | some op =>
      rw [Checked.step_fetch hpc hop] at hnt ⊢
      rw [Unchecked.step_fetch_unchecked hpc hop]
      by_cases hcmp : op = 0x21
      · subst hcmp
        obtain ⟨ha, hb, hc⟩ := dispatch_cmp_agree hpc hnt
        refine ⟨ha, fun hx => hb fun lo hi h1 h2 hz => ?_, fun hx _ => ?_⟩
        · by_contra hne
          exact hx ⟨hop, hz, lo, hi, h1, h2, hne⟩
        · obtain ⟨_, hz, lo, hi, h1, h2, hne⟩ := hx
          exact hc lo hi h1 h2 hz hne
      · have he := dispatch_agree hpc hcmp hnt
        rw [he]
        refine ⟨rfl, fun _ => rfl, fun hx _ => ?_⟩
        rw [hx.1] at hop
        exact absurd (Option.some.inj hop).symm hcmp
  · have h1 : Checked.step rom m = .exhausted m := by simp [Checked.step, hpc]
    have h2 : Unchecked.step rom m = .exhausted m := by simp [Unchecked.step, hpc]
    rw [h1, h2]
    exact ⟨rfl, fun _ => rfl, fun _ h => absurd h hpc⟩

/-- Witness for `variants_agree`: on `CMP A, 7` with `A = 5` and `Z` true the
unchecked variant keeps `Z` true and the checked one clears it; on `ADD A, 5` the
two iterations are equal. -/
theorem variants_agree_witness :
    (Unchecked.step (load_rom [0x21, 0x07, 0x00]).1 (setZ (setA (initial 3 []) 5) true)
        = .running (setPC (setZ (setA (initial 3 []) 5) true) 3) ∧
      Checked.step (load_rom [0x21, 0x07, 0x00]).1 (setZ (setA (initial 3 []) 5) true)
        = .running (setPC (setZ (setA (initial 3 []) 5) false) 3)) ∧
    Unchecked.step (load_rom [0x00, 0x05]).1 (initial 2 [])
      = Checked.step (load_rom [0x00, 0x05]).1 (initial 2 []) :=
  ⟨(variants_agree (load_rom [0x21, 0x07, 0x00]).1 (setZ (setA (initial 3 []) 5) true)
      (by
        rw [@Checked.step_cmp (load_rom [0x21, 0x07, 0x00]).1
          (setZ (setA (initial 3 []) 5) true) 0x07 0x00 (by decide)
          (load_rom_getElem? _ (by decide)) (load_rom_getElem? _ (by decide))
          (load_rom_getElem? _ (by decide))]
        intro p m1 h
        cases h)).2.2
      ⟨load_rom_getElem? _ (by decide), rfl, 0x07, 0x00, load_rom_getElem? _ (by decide),
        load_rom_getElem? _ (by decide), by decide⟩ (by decide),
   (variants_agree (load_rom [0x00, 0x05]).1 (initial 2 [])
      (by
        rw [@Checked.step_add8 (load_rom [0x00, 0x05]).1 (initial 2 []) .A 0x05 (by decide)
          (load_rom_getElem? _ (by decide)) (load_rom_getElem? _ (by decide))]
        intro p m1 h
        cases h)).2.1
      (fun h => by
        have h0 := h.1
        rw [load_rom_getElem? _ (show (initial 2 []).cpu.PC < ROM_SIZE by decide)] at h0
        cases h0)⟩

namespace Checked

/-! ## C20: the RAM-out-of-bounds fault cannot occur -/

theorem run_ne_ramOutOfBounds (rom : List Nat) (fuel : Nat) (m : Machine) (a p : Nat)
    (m1 : Machine) : run rom fuel m ≠ .faulted (.ramOutOfBounds a p) m1 := by
  induction fuel generalizing m with
  | zero =>
    intro h
    cases h
  | succ n ih =>
    simp only [run]
    cases hs : step rom m with
    | running m2 => exact ih m2
    | halted m2 =>
      intro h
      cases h
    | faulted f m2 =>
      intro h
      have := step_ne_ramOutOfBounds rom m a p m1
      rw [hs] at this
      exact this h
    | exhausted m2 =>
      intro h
      cases h
    | undefined u =>
      intro h
      cases h

/-- C20: in the checked variant the RAM-out-of-bounds fault is unreachable: the
address is converted to `uint16_t` before it is compared with 65536, so for every
code region, input stream and state no iteration, and no run of any length, ends
with that fault; and every LOAD or STORE (`0x24..0x2B`) whose three bytes lie in
the code region completes and the loop goes on. -/
theorem ram_fault_unreachable (rom : List Nat) (m : Machine) (fuel op : Nat) :
    (∀ a p m1, step rom m ≠ .faulted (.ramOutOfBounds a p) m1) ∧
    (∀ a p m1, run rom fuel m ≠ .faulted (.ramOutOfBounds a p) m1) ∧
    (∀ x : Int, u16 x < RAM_SIZE) ∧
    (rom.length = ROM_SIZE → m.ram.length = RAM_SIZE → m.cpu.PC + 3 ≤ ROM_SIZE →
      rom[m.cpu.PC]? = some op → 0x24 ≤ op → op ≤ 0x2B → Runs (step rom m)) := by
  refine ⟨step_ne_ramOutOfBounds rom m, run_ne_ramOutOfBounds rom fuel m, u16_lt, ?_⟩
  intro hrom hram hpc hop h1 h2
  have hw : operand_width op = some 2 := by
    unfold operand_width
    split_ifs <;> first | rfl | (exfalso; omega)
  rw [step_fetch (by omega) hop]
  exact (@truncated_dispatch rom m op 2 hrom hram (by omega) hw (.inr rfl)).2 (by omega)

/-- Witness for `ram_fault_unreachable`: `STORE A, [0xFFFF]` on the initial state
completes. -/
theorem ram_fault_unreachable_witness :
    Runs (step (load_rom [0x28, 0xFF, 0xFF]).1 (initial 3 [])) :=
  (ram_fault_unreachable (load_rom [0x28, 0xFF, 0xFF]).1 (initial 3 []) 0 0x28).2.2.2
    (load_rom_length _) (by simp [initial]) (by decide) (load_rom_getElem? _ (by decide))
    (by decide) (by decide)


/-! ## C21: a run without jumps ends within 32768 cycles -/

theorem operand_width_le {op w : Nat} (h : operand_width op = some w) : w ≤ 2 := by
  unfold operand_width at h
  split_ifs at h <;> simp at h <;> omega

theorem step_running_lt {rom : List Nat} {m m1 : Machine} (h : step rom m = .running m1) :
    m.cpu.PC < ROM_SIZE := by
  by_contra hpc
  rw [step_exhausted (Nat.le_of_not_lt hpc)] at h
  cases h

theorem step_running_fetch {rom : List Nat} {m m1 : Machine}
    (h : step rom m = .running m1) :
    ∃ op, rom[m.cpu.PC]? = some op ∧ dispatch rom m op = .running m1 := by
  have hpc := step_running_lt h
  cases hop : rom[m.cpu.PC]? with
  | none => simp [step, romAt, hop, hpc] at h
  | some op =>
    rw [step_fetch hpc hop] at h
    exact ⟨op, rfl, h⟩

theorem dispatch_running_known {rom : List Nat} {m m1 : Machine} {op : Nat}
    (h : dispatch rom m op = .running m1) : op ≤ 0x31 := by
  by_contra hk
  by_cases hff : op = 0xFF
  · subst hff
    rw [dispatch_halt] at h
    cases h
  · rw [dispatch_unknown rom m op (by omega) hff] at h
    cases h

theorem dispatch_untaken_pc {rom : List Nat} {m m1 : Machine} {op : Nat}
    (hpc : m.cpu.PC < ROM_SIZE)
    (hj : (op = 0x22 ∧ m.cpu.Z = false) ∨ (op = 0x23 ∧ m.cpu.Z = true))
    (h : dispatch rom m op = .running m1) : m1.cpu.PC = m.cpu.PC + 3 := by
  rcases hj with ⟨hop, hz⟩ | ⟨hop, hz⟩
  · subst hop
    simp only [dispatch, CHECK_ROM, hz] at h
    split at h
    · cases h
    · exact advance_running_pc hpc (by decide) h
  · subst hop
    simp only [dispatch, CHECK_ROM, hz] at h
    split at h
    · cases h
    · exact advance_running_pc hpc (by decide) h

theorem step_pc_increase {rom : List Nat} {m m1 : Machine} {op : Nat}
    (hop : rom[m.cpu.PC]? = some op)
    (hj : ¬ (op = 0x14 ∨ (op = 0x22 ∧ m.cpu.Z = true) ∨ (op = 0x23 ∧ m.cpu.Z = false)))
    (h : step rom m = .running m1) :
    m1.cpu.PC = m.cpu.PC + 1 ∨ m1.cpu.PC = m.cpu.PC + 2 ∨ m1.cpu.PC = m.cpu.PC + 3 := by
  have hpc := step_running_lt h
  rw [step_fetch hpc hop] at h
  by_cases h3 : op ≠ 0x14 ∧ op ≠ 0x22 ∧ op ≠ 0x23
  · obtain ⟨w, hw⟩ := operand_width_some (.inl (dispatch_running_known h))
    have hle := operand_width_le hw
    have := dispatch_pc_advance hpc hw h3 h
    omega
  · have hcase : (op = 0x22 ∧ m.cpu.Z = false) ∨ (op = 0x23 ∧ m.cpu.Z = true) := by
      cases hz : m.cpu.Z <;> simp [hz] at hj ⊢ <;> omega
    exact .inr (.inr (dispatch_untaken_pc hpc hcase h))

theorem no_jump_executed_next {rom : List Nat} {m m1 : Machine}
    (hnj : no_jump_executed rom m) (h : step rom m = .running m1) :
    no_jump_executed rom m1 := by
  intro k mk hk hpc
  exact hnj (k + 1) mk (by rw [run_succ_running k h]; exact hk) hpc

theorem run_pc_ge {rom : List Nat} (k : Nat) {m mk : Machine}
    (hnj : no_jump_executed rom m) (h : run rom k m = .running mk) :
    m.cpu.PC + k ≤ mk.cpu.PC := by
  induction k generalizing m with
  | zero =>
    cases h
    exact Nat.le_refl _
  | succ n ih =>
    cases hs : step rom m with
    | running m1 =>
      rw [run_succ_running n hs] at h
      have h1 := ih (no_jump_executed_next hnj hs) h
      obtain ⟨op, hop, _⟩ := step_running_fetch hs
      have h0 := hnj 0 m rfl (step_running_lt hs)
      rw [hop] at h0
      have hinc := @step_pc_increase rom m m1 op hop (by
        rintro (rfl | ⟨rfl, _⟩ | ⟨rfl, _⟩)
        · exact h0.1 rfl
        · exact h0.2.1 rfl
        · exact h0.2.2 rfl) hs
      omega
    | halted m1 => simp only [run, hs] at h; cases h
    | faulted f m1 => simp only [run, hs] at h; cases h
    | exhausted m1 => simp only [run, hs] at h; cases h
    | undefined u => simp only [run, hs] at h; cases h

theorem run_succ_last (rom : List Nat) (k : Nat) (m : Machine) :
    run rom (k + 1) m =
      match run rom k m with
      | .running mk => step rom mk
      | o => o := by
  induction k generalizing m with
  | zero =>
    rw [run_one]
    rfl
  | succ n ih =>
    cases hs : step rom m with
    | running m1 => rw [run_succ_running (n + 1) hs, run_succ_running n hs, ih m1]
    | halted m1 => simp only [run, hs]
    | faulted f m1 => simp only [run, hs]
    | exhausted m1 => simp only [run, hs]
    | undefined u => simp only [run, hs]

theorem run_ne_outOfRange {rom : List Nat} (hrom : rom.length = ROM_SIZE) (k : Nat)
    {m : Machine} (hram : m.ram.length = RAM_SIZE) :
    run rom k m ≠ .undefined .outOfRange := by
  induction k generalizing m with
  | zero =>
    intro h
    cases h
  | succ n ih =>
    have hb := inBounds_step hrom hram
    cases hs : step rom m with
    | running m1 =>
      rw [run_succ_running n hs]
      exact ih (hb.2 m1 hs)
    | halted m1 => simp only [run, hs]; intro h; cases h
    | faulted f m1 => simp only [run, hs]; intro h; cases h
    | exhausted m1 => simp only [run, hs]; intro h; cases h
    | undefined u =>
      simp only [run, hs]
      rw [hs] at hb
      exact hb.1

theorem zero_image_at {i : Nat} (hi : i < ROM_SIZE) : (load_rom []).1[i]? = some 0 := by
  rw [load_rom_getElem? [] hi]
  simp

theorem zero_image_no_jump (m0 : Machine) : no_jump_executed (load_rom []).1 m0 := by
  intro k mk _ hpc
  rw [zero_image_at hpc]
  simp

theorem zero_image_step (stdin : List Nat) (j : Nat) (h : 2 * j + 2 ≤ ROM_SIZE) :
    step (load_rom []).1 (setPC (initial 0 stdin) (2 * j))
      = .running (setPC (initial 0 stdin) (2 * j + 2)) := by
  have hs := @step_add8 (load_rom []).1 (setPC (initial 0 stdin) (2 * j)) .A 0 h
    (zero_image_at (show 2 * j < ROM_SIZE by omega))
    (zero_image_at (show 2 * j + 1 < ROM_SIZE by omega))
  rw [hs]
  rfl

theorem zero_image_run (stdin : List Nat) (n j : Nat) (h : 2 * (j + n) ≤ ROM_SIZE) :
    run (load_rom []).1 n (setPC (initial 0 stdin) (2 * j))
      = .running (setPC (initial 0 stdin) (2 * (j + n))) := by
  induction n generalizing j with
  | zero => rfl
  | succ n ih =>
    rw [run_succ_running n (zero_image_step stdin j (by omega))]
    have := ih (j + 1) (by omega)
    rw [show 2 * (j + 1) = 2 * j + 2 by omega, show j + 1 + n = j + (n + 1) by omega] at this
    exact this

theorem zero_image_main (stdin : List Nat) (n : Nat) (h : n ≤ 16384) :
    main n [] stdin = .running (setPC (initial 0 stdin) (2 * n)) := by
  rw [main_eq n [] stdin (show (load_rom []).2 = 0 from Nat.min_eq_left (Nat.zero_le _))]
  have := zero_image_run stdin n 0 (by simp only [ROM_SIZE]; omega)
  rw [Nat.zero_add] at this
  exact this

theorem dispatch_ne_undefined_overflow (rom : List Nat) (m : Machine) (op : Nat) :
    dispatch rom m op ≠ .undefined .signedOverflow := by
  by_cases hop : op ≤ 0x31
  · interval_cases op <;>
      simp only [dispatch, CHECK_ROM, CHECK_RAM, operands, romAt, ramAt, ramSet, advance] <;>
      (repeat' split) <;> simp
  · by_cases hff : op = 0xFF
    · subst hff
      simp [dispatch]
    · rw [dispatch_unknown rom m op (by omega) hff]
      simp

theorem step_ne_undefined_overflow (rom : List Nat) (m : Machine) :
    step rom m ≠ .undefined .signedOverflow := by
  unfold step romAt
  split
  · simp
  · split
    · exact dispatch_ne_undefined_overflow rom m _
    · simp

theorem run_ne_undefined {rom : List Nat} (hrom : rom.length = ROM_SIZE) (k : Nat)
    {m : Machine} (hram : m.ram.length = RAM_SIZE) (u : Undefined) :
    run rom k m ≠ .undefined u := by
  cases u with
  | outOfRange => exact run_ne_outOfRange hrom k hram
  | signedOverflow =>
    induction k generalizing m with
    | zero =>
      intro h
      cases h
    | succ n ih =>
      cases hs : step rom m with
      | running m1 =>
        rw [run_succ_running n hs]
        exact ih ((inBounds_step hrom hram).2 m1 hs)
      | halted m1 => simp only [run, hs]; intro h; cases h
      | faulted f m1 => simp only [run, hs]; intro h; cases h
      | exhausted m1 => simp only [run, hs]; intro h; cases h
      | undefined u =>
        simp only [run, hs]
        rw [← hs]
        exact step_ne_undefined_overflow rom m

/-- C21: in the checked variant, every cycle that continues without taking a jump
(JMP, JZ with `Z` true and JNZ with `Z` false excluded) increases the PC by
exactly 1, 2 or 3.  Consequently, for every code region of 32768 bytes and every
input stream whose run from the initial state never executes `0x14`, `0x22` or
`0x23`, a state reached after `k` cycles has `PC ≥ k`, and the run reaches a
terminal outcome (Halted, Faulted or Exhausted) within at most 32768 cycles:
after some `k ≤ 32768` iterations of the loop either the outcome is terminal or
the PC has reached 32768, so that the loop condition ends the run as Exhausted
with no further cycle; hence 32769 iterations, the last one being at most the
failed loop condition, always give a terminal outcome.  For the all-zero image
(an empty ROM file), on every input, cycle `j < 16384` executes `ADD A, 0` at
`PC = 2 * j`, and after 16384 cycles the run ends Exhausted with `PC = 32768`,
every register zero and `Z` false. -/
theorem no_jump_run_ends (rom : List Nat) (hrom : rom.length = ROM_SIZE)
    (bytes_read : Nat) (stdin : List Nat)
    (hnj : no_jump_executed rom (initial bytes_read stdin)) :
    (∀ m m1 op, rom[m.cpu.PC]? = some op → step rom m = .running m1 →
      ¬ (op = 0x14 ∨ (op = 0x22 ∧ m.cpu.Z = true) ∨ (op = 0x23 ∧ m.cpu.Z = false)) →
      m1.cpu.PC = m.cpu.PC + 1 ∨ m1.cpu.PC = m.cpu.PC + 2 ∨ m1.cpu.PC = m.cpu.PC + 3) ∧
    (∀ k mk, run rom k (initial bytes_read stdin) = .running mk → k ≤ mk.cpu.PC) ∧
    (∃ k, k ≤ 32768 ∧
      ((run rom k (initial bytes_read stdin)).isTerminal = true ∨
        ∃ mk, run rom k (initial bytes_read stdin) = .running mk ∧
          step rom mk = .exhausted mk)) ∧
    (run rom (ROM_SIZE + 1) (initial bytes_read stdin)).isTerminal = true ∧
    (∀ input : List Nat,
      (load_rom []).1 = List.replicate ROM_SIZE 0 ∧
      (∀ j, j < 16384 →
        main j [] input = .running (setPC (initial 0 input) (2 * j)) ∧
        (load_rom []).1[2 * j]? = some 0x00 ∧ (load_rom []).1[2 * j + 1]? = some 0 ∧
        step (load_rom []).1 (setPC (initial 0 input) (2 * j))
          = .running (setPC (initial 0 input) (2 * j + 2))) ∧
      main 16384 [] input = .running (setPC (initial 0 input) 32768) ∧
      main 16385 [] input = .exhausted (setPC (initial 0 input) 32768) ∧
      (setPC (initial 0 input) 32768).cpu
        = { A := 0, B := 0, C := 0, D := 0, PC := 32768, Z := false }) := by
  have hge : ∀ k mk, run rom k (initial bytes_read stdin) = .running mk → k ≤ mk.cpu.PC := by
    intro k mk hk
    have := run_pc_ge k hnj hk
    rw [show (initial bytes_read stdin).cpu.PC = 0 from rfl, Nat.zero_add] at this
    exact this
  have hram : (initial bytes_read stdin).ram.length = RAM_SIZE := by simp [initial]
  have hend : ∀ o, run rom ROM_SIZE (initial bytes_read stdin) = o →
      (o.isTerminal = true ∨ ∃ mk, o = .running mk ∧ step rom mk = .exhausted mk) := by
    intro o ho
    cases o with
    | running mk => exact .inr ⟨mk, rfl, step_exhausted (hge _ _ ho)⟩
    | halted m1 => exact .inl rfl
    | faulted f m1 => exact .inl rfl
    | exhausted m1 => exact .inl rfl
    | undefined u => exact absurd ho (run_ne_undefined hrom _ hram u)
  have hlast : (run rom (ROM_SIZE + 1) (initial bytes_read stdin)).isTerminal = true := by
    rw [run_succ_last]
    rcases hend _ rfl with h | ⟨mk, h, hx⟩
    · cases ho : run rom ROM_SIZE (initial bytes_read stdin) with
      | running mk => rw [ho] at h; cases h
      | halted m1 => rfl
      | faulted f m1 => rfl
      | exhausted m1 => rfl
      | undefined u => rw [ho] at h; cases h
    · rw [h]
      simp only [hx]
      rfl
  refine ⟨fun m m1 op hop hs hj => step_pc_increase hop hj hs, hge,
    ⟨ROM_SIZE, Nat.le_refl _, hend _ rfl⟩, hlast, fun input => ?_⟩
  refine ⟨?_, fun j hj => ⟨zero_image_main input j (by omega), ?_, ?_, ?_⟩, ?_, ?_, rfl⟩
  · simp [load_rom]
  · exact zero_image_at (by simp only [ROM_SIZE]; omega)
  · exact zero_image_at (by simp only [ROM_SIZE]; omega)
  · exact zero_image_step input j (by simp only [ROM_SIZE]; omega)
  · exact zero_image_main input 16384 (Nat.le_refl _)
  · rw [main_eq 16385 [] input
      (show (load_rom []).2 = 0 from Nat.min_eq_left (Nat.zero_le _)),
      run_succ_last (load_rom []).1 16384 (initial 0 input),
      ← main_eq 16384 [] input
        (show (load_rom []).2 = 0 from Nat.min_eq_left (Nat.zero_le _)),
      zero_image_main input 16384 (Nat.le_refl _)]
    exact step_exhausted (Nat.le_refl _)

/-- Witness for `no_jump_run_ends`: the all-zero image on empty input never
executes a jump, its run is terminal after 32769 iterations of the loop, and it
ends Exhausted after 16384 cycles. -/
theorem no_jump_run_ends_witness :
    (load_rom []).1.length = ROM_SIZE ∧
    no_jump_executed (load_rom []).1 (initial 0 []) ∧
    (run (load_rom []).1 (ROM_SIZE + 1) (initial 0 [])).isTerminal = true ∧
    main 16385 [] [] = .exhausted (setPC (initial 0 []) 32768) :=
  ⟨load_rom_length _, zero_image_no_jump _,
   (no_jump_run_ends (load_rom []).1 (load_rom_length _) 0 []
      (zero_image_no_jump _)).2.2.2.1,
   ((no_jump_run_ends (load_rom []).1 (load_rom_length _) 0 []
      (zero_image_no_jump _)).2.2.2.2 []).2.2.2.1⟩

end Checked

/-! ## C22: OUT_BITS and IN_BIN -/

theorem bit_char_cases (v i : Nat) : bit_char v i = 48 ∨ bit_char v i = 49 := by
  unfold bit_char
  have h2 : v / 2 ^ i % 2 < 2 := Nat.mod_lt _ (by decide)
  omega

theorem out_bit_char (v i : Nat) :
    (if v &&& (1 <<< i) ≠ 0 then 49 else 48) = bit_char v i := by
  rw [Nat.one_shiftLeft, Nat.and_two_pow, Nat.testBit_to_div_mod]
  unfold bit_char
  have h2 : v / 2 ^ i % 2 < 2 := Nat.mod_lt _ (by decide)
  have hp : 0 < 2 ^ i := Nat.two_pow_pos i
  by_cases h : v / 2 ^ i % 2 = 1
  · simp [h]
  · have h0 : v / 2 ^ i % 2 = 0 := by omega
    simp [h0]

theorem bit_char_mod (v i : Nat) : bit_char v i % 256 = bit_char v i := by
  rcases bit_char_cases v i with h | h <;> rw [h]

theorem out_bits_eq (m : Machine) (a : Nat) :
    out_bits m a = { m with stdout := m.stdout ++ (bits_text a).map Output.byte } := by
  simp only [out_bits, List.foldl, out_bit_char, putchar, bit_char_mod, bits_text,
    List.map, List.append_assoc, List.cons_append, List.nil_append, Nat.reduceMod]

theorem shift_or_bit (value c : Nat) (hc : c = 48 ∨ c = 49) (hv : 2 * value < INT_RANGE) :
    ((value <<< 1) % INT_RANGE) ||| (c - 48) = 2 * value + (c - 48) := by
  have hb : c - 48 < 2 ^ 1 := by
    rcases hc with h | h <;> rw [h] <;> decide
  rw [Nat.shiftLeft_eq, Nat.mul_comm, Nat.mod_eq_of_lt (by simpa using hv),
    Nat.mul_add_lt_is_or hb]

theorem binary_from_ge (value : Nat) (bs : List Nat) : value ≤ binary_from value bs := by
  induction bs generalizing value with
  | nil => exact Nat.le_refl _
  | cons c t ih =>
    have := ih (2 * value + (c - 48))
    simp only [binary_from, List.foldl] at this ⊢
    omega

theorem in_bin_loop_bits (value : Nat) (bs rest : List Nat)
    (hbs : ∀ c ∈ bs, c = 48 ∨ c = 49) (hrest : ∀ c ∈ rest.head?, ¬ (c = 48 ∨ c = 49))
    (hmax : binary_from value bs ≤ INT_MAX) :
    in_bin_loop value (bs ++ rest) = (binary_from value bs, rest.tail) := by
  induction bs generalizing value with
  | nil =>
    cases rest with
    | nil => rfl
    | cons c r =>
      have hc : ¬ (c = 48 ∨ c = 49) := hrest c (by simp)
      simp [in_bin_loop, hc, binary_from]
  | cons c t ih =>
    have hc : c = 48 ∨ c = 49 := hbs c (by simp)
    have hge := binary_from_ge (2 * value + (c - 48)) t
    have hstep : binary_from value (c :: t) = binary_from (2 * value + (c - 48)) t := rfl
    have hsh : 2 * value < INT_RANGE := by
      rw [hstep] at hmax
      simp only [INT_MAX, INT_RANGE] at *
      omega
    show in_bin_loop value (c :: (t ++ rest)) = _
    simp only [in_bin_loop, hc, if_true, shift_or_bit value c hc hsh]
    rw [hstep]
    exact ih _ (fun c hct => hbs c (by simp [hct])) (by rw [← hstep]; exact hmax)

theorem half_split (x : Nat) : x = 2 * (x / 2) + x % 2 := (Nat.div_add_mod x 2).symm

theorem bits_text_value (v : Nat) :
    binary_from 0 ([7, 6, 5, 4, 3, 2, 1, 0].map (bit_char v)) = v % 256 := by
  show 2 * (2 * (2 * (2 * (2 * (2 * (2 * (2 * 0 + (48 + v / 128 % 2 - 48))
    + (48 + v / 64 % 2 - 48)) + (48 + v / 32 % 2 - 48)) + (48 + v / 16 % 2 - 48))
    + (48 + v / 8 % 2 - 48)) + (48 + v / 4 % 2 - 48)) + (48 + v / 2 % 2 - 48))
    + (48 + v / 1 % 2 - 48) = v % 256
  have e1 : v / 2 = v / 1 / 2 := by rw [Nat.div_one]
  have e2 : v / 4 = v / 2 / 2 := by rw [Nat.div_div_eq_div_mul]
  have e3 : v / 8 = v / 4 / 2 := by rw [Nat.div_div_eq_div_mul]
  have e4 : v / 16 = v / 8 / 2 := by rw [Nat.div_div_eq_div_mul]
  have e5 : v / 32 = v / 16 / 2 := by rw [Nat.div_div_eq_div_mul]
  have e6 : v / 64 = v / 32 / 2 := by rw [Nat.div_div_eq_div_mul]
  have e7 : v / 128 = v / 64 / 2 := by rw [Nat.div_div_eq_div_mul]
  have e8 : v / 256 = v / 128 / 2 := by rw [Nat.div_div_eq_div_mul]
  have h0 := half_split (v / 1)
  have h1 := half_split (v / 2)
  have h2 := half_split (v / 4)
  have h3 := half_split (v / 8)
  have h4 := half_split (v / 16)
  have h5 := half_split (v / 32)
  have h6 := half_split (v / 64)
  have h7 := half_split (v / 128)
  rw [← e1] at h0
  rw [← e2] at h1
  rw [← e3] at h2
  rw [← e4] at h3
  rw [← e5] at h4
  rw [← e6] at h5
  rw [← e7] at h6
  rw [← e8] at h7
  have hv : v = 256 * (v / 256) + v % 256 := (Nat.div_add_mod v 256).symm
  have hv1 : v / 1 = v := Nat.div_one v
  clear e1 e2 e3 e4 e5 e6 e7 e8
  generalize v / 256 = q8 at *
  generalize v / 128 % 2 = b7 at *
  generalize v / 128 = q7 at *
  generalize v / 64 % 2 = b6 at *
  generalize v / 64 = q6 at *
  generalize v / 32 % 2 = b5 at *
  generalize v / 32 = q5 at *
  generalize v / 16 % 2 = b4 at *
  generalize v / 16 = q4 at *
  generalize v / 8 % 2 = b3 at *
  generalize v / 8 = q3 at *
  generalize v / 4 % 2 = b2 at *
  generalize v / 4 = q2 at *
  generalize v / 2 % 2 = b1 at *
  generalize v / 2 = q1 at *
  generalize v / 1 % 2 = b0 at *
  generalize v / 1 = q0 at *
  generalize v % 256 = r at *
  omega
theorem in_bin_loop_bits_text (v : Nat) (rest : List Nat) :
    in_bin_loop 0 (bits_text v ++ rest) = (v % 256, rest) := by
  have h := in_bin_loop_bits 0 ([7, 6, 5, 4, 3, 2, 1, 0].map (bit_char v)) (10 :: rest)
    (by
      intro c hc
      rw [List.mem_map] at hc
      obtain ⟨i, _, rfl⟩ := hc
      exact bit_char_cases v i)
    (by simp)
    (by
      rw [bits_text_value]
      have : v % 256 < 256 := Nat.mod_lt _ (by decide)
      simp only [INT_MAX]
      omega)
  rw [bits_text_value] at h
  rw [bits_text, List.append_assoc]
  exact h

theorem Variant.both_step_out_bits (variant : Variant) {rom : List Nat} {m : Machine}
    (hpc : m.cpu.PC < ROM_SIZE) (hop : rom[m.cpu.PC]? = some 0x2F) :
    variant.step rom m = .running (setPC (out_bits m m.cpu.A) (m.cpu.PC + 1)) := by
  have hcpu : (out_bits m m.cpu.A).cpu.PC = m.cpu.PC := by rw [out_bits_cpu]
  cases variant
  · show Checked.step rom m = _
    rw [Checked.step_fetch hpc hop]
    simp only [Checked.dispatch]
    exact Checked.advance_at (out_bits m m.cpu.A) hcpu (by omega)
  · show Unchecked.step rom m = _
    rw [Unchecked.step_fetch_unchecked hpc hop]
    simp only [Unchecked.dispatch]
    exact Unchecked.advance_at_unchecked (out_bits m m.cpu.A) hcpu (by omega)

theorem Variant.both_step_in_bin (variant : Variant) {rom : List Nat} {m : Machine}
    (hpc : m.cpu.PC < ROM_SIZE) (hop : rom[m.cpu.PC]? = some 0x31) :
    variant.step rom m =
      .running (setPC (setA { m with stdin := (in_bin_loop 0 m.stdin).2 }
        ((in_bin_loop 0 m.stdin).1 % 256)) (m.cpu.PC + 1)) := by
  cases variant
  · show Checked.step rom m = _
    rw [Checked.step_fetch hpc hop]
    simp only [Checked.dispatch, and_255]
    exact Checked.advance_at _ (rfl : _ = m.cpu.PC) (by omega)
  · show Unchecked.step rom m = _
    rw [Unchecked.step_fetch_unchecked hpc hop]
    simp only [Unchecked.dispatch, and_255]
    exact Unchecked.advance_at_unchecked _ (rfl : _ = m.cpu.PC) (by omega)

/-- C22: in both variants, for every value `v` of `A`, OUT_BITS (`0x2F`) appends
to the output exactly nine characters, `0` or `1` for each of the bits 7 down to
0 of `v` (most significant first) and then a newline, advances the PC by 1 and
changes nothing else, so `A` is still `v`; and IN_BIN (`0x31`) on an input that
begins with those nine characters sets `A` to `v mod 256`, consumes exactly those
nine characters (the newline ends the run of bits and is consumed), advances the
PC by 1 and changes nothing else. -/
theorem out_bits_in_bin (variant : Variant) (rom : List Nat) (m : Machine) (v : Nat)
    (rest : List Nat) (hpc : m.cpu.PC < ROM_SIZE) :
    (rom[m.cpu.PC]? = some 0x2F → m.cpu.A = v →
      variant.step rom m = .running
        (setPC { m with stdout := m.stdout ++ (bits_text v).map Output.byte }
          (m.cpu.PC + 1)) ∧
      (setPC { m with stdout := m.stdout ++ (bits_text v).map Output.byte }
          (m.cpu.PC + 1)).cpu.A = v) ∧
    (bits_text v).length = 9 ∧
    (∀ i, i < 8 →
      (bits_text v)[i]? = some (if v / 2 ^ (7 - i) % 2 = 1 then 49 else 48)) ∧
    (bits_text v)[8]? = some 10 ∧
    (rom[m.cpu.PC]? = some 0x31 → m.stdin = bits_text v ++ rest →
      variant.step rom m = .running
        (setPC (setA { m with stdin := rest } (v % 256)) (m.cpu.PC + 1))) := by
  refine ⟨fun hop hA => ⟨?_, hA⟩, rfl, fun i hi => ?_, rfl, fun hop hin => ?_⟩
  · rw [variant.both_step_out_bits hpc hop, out_bits_eq, hA]
  · interval_cases i <;> simp [bits_text, bit_char] <;> split <;> omega
  · have hs := variant.both_step_in_bin hpc hop
    rw [hin, in_bin_loop_bits_text v rest] at hs
    simp only [Nat.mod_mod] at hs
    exact hs

/-- Witness for `out_bits_in_bin`: with `A = 0x01A5` the checked variant prints
`10100101` and a newline, and on the input `10100101`, newline, `A` the unchecked
variant sets `A = 0xA5` and leaves the `A` of the input unread. -/
theorem out_bits_in_bin_witness :
    Checked.step (load_rom [0x2F]).1 (setA (initial 1 []) 0x01A5) = .running
      (setPC { setA (initial 1 []) 0x01A5 with
        stdout := [.loaded 1] ++
          [49, 48, 49, 48, 48, 49, 48, 49, 10].map Output.byte } 1) ∧
    Unchecked.step (load_rom [0x31]).1
        (initial 1 [49, 48, 49, 48, 48, 49, 48, 49, 10, 65]) = .running
      (setPC (setA { initial 1 [49, 48, 49, 48, 48, 49, 48, 49, 10, 65] with
        stdin := [65] } 0xA5) 1) :=
  ⟨((out_bits_in_bin .checked (load_rom [0x2F]).1 (setA (initial 1 []) 0x01A5) 0x01A5 []
      (by decide)).1 (load_rom_getElem? _ (by decide)) rfl).1,
   (out_bits_in_bin .unchecked (load_rom [0x31]).1
      (initial 1 [49, 48, 49, 48, 48, 49, 48, 49, 10, 65]) 0x01A5 [65]
      (by decide)).2.2.2.2 (load_rom_getElem? _ (by decide)) rfl⟩

end SimpleCPU
